import Mathlib

/-!
Verification development for the preet_portfolio repository.

The development gives a shallow embedding, over `List Char`, of

* `parseAndRender` from `src/components/TeXRenderer.tsx` — the LaTeX-subset
  to HTML transpiler (a strict ordered pipeline of global regex rewrites),
* the build-time extractor helpers from the ingestion script
  (`slugify`, the title extraction, `extractImages`, `getPreviewImage`).

Every JavaScript `String.replace(regex, ...)` pass is hand-compiled to a
left-to-right scanner (`scanF`) whose step function mirrors exactly the
regex of the corresponding source line; replacement output is never
re-scanned, matching the JS semantics.  Scanners carry a fuel argument
(always instantiated with `length + 1`, enough since every step consumes
at least one character) so that all definitions reduce in the kernel.
-/

set_option maxRecDepth 10000

namespace Portfolio

abbrev Str := List Char

def str (s : String) : Str := s.toList

/-- JavaScript `\s` restricted to the ASCII whitespace actually used. -/
def isWsC (c : Char) : Bool :=
  c = ' ' || c = '\t' || c = '\n' || c = '\r' || c = '\x0b' || c = '\x0c'

def isDigitC (c : Char) : Bool := '0' ≤ c && c ≤ '9'

def isAlphaC (c : Char) : Bool := ('a' ≤ c && c ≤ 'z') || ('A' ≤ c && c ≤ 'Z')

def isAlnumC (c : Char) : Bool := isAlphaC c || isDigitC c

/-- JavaScript `\w`: `[A-Za-z0-9_]`. -/
def isWordC (c : Char) : Bool := isAlnumC c || c = '_'

/-- `sw p s`: `s` starts with `p`. -/
def sw : Str → Str → Bool
  | [], _ => true
  | _ :: _, [] => false
  | p :: ps, c :: cs => p == c && sw ps cs

/-- `containsSub p s`: some suffix of `s` starts with `p`. -/
def containsSub (p : Str) : Str → Bool
  | [] => sw p []
  | c :: cs => sw p (c :: cs) || containsSub p cs

/-- Number of leftmost non-overlapping occurrences of a nonempty pattern. -/
def countSub (p : Str) : Nat → Str → Nat
  | _, [] => 0
  | 0, _ => 0
  | fuel + 1, c :: cs =>
    if sw p (c :: cs) then 1 + countSub p fuel (List.drop (p.length - 1) cs)
    else countSub p fuel cs

def countSubR (p s : Str) : Nat := countSub p (s.length + 1) s

/-- JavaScript `String.prototype.trim`. -/
def trimJs (s : Str) : Str :=
  ((s.dropWhile isWsC).reverse.dropWhile isWsC).reverse

/-- `upToChar c s`: split `s` at the first occurrence of `c`; the returned
pair is (text before `c`, text after `c`).  `none` when `c` is absent. -/
def upToChar (c : Char) : Str → Option (Str × Str)
  | [] => none
  | a :: r =>
    if a = c then some ([], r)
    else (upToChar c r).map (fun p => (a :: p.1, p.2))

/-- `upToSub p s`: split `s` at the first occurrence of the substring `p`
(the lazy-`[\s\S]*?` search); returns (text before, text after `p`). -/
def upToSub (p : Str) : Str → Option (Str × Str)
  | [] => none
  | c :: cs =>
    if sw p (c :: cs) then some ([], List.drop p.length (c :: cs))
    else (upToSub p cs).map (fun q => (c :: q.1, q.2))

/-- Like `upToSub` but the searched-over text may not contain a newline:
used for the `.*?` (dot excludes newline) part of the list-item wrapper. -/
def upToSubNoNl (p : Str) : Str → Option (Str × Str)
  | [] => none
  | c :: cs =>
    if sw p (c :: cs) then some ([], List.drop p.length (c :: cs))
    else if c = '\n' then none
    else (upToSubNoNl p cs).map (fun q => (c :: q.1, q.2))

/-- The generic rewrite scanner.  At each position the step function either
matches — returning (output to emit, rest of the input after the match, new
state) — or fails, in which case one character is copied through.  Matches
JavaScript `String.replace` with a `g` regex: replacement output is not
re-scanned.  `fuel` is always called with `length + 1`. -/
def scanF {σ : Type} (step : σ → Str → Option (Str × Str × σ)) :
    Nat → σ → Str → Str × σ
  | 0, st, _ => ([], st)
  | _ + 1, st, [] => ([], st)
  | fuel + 1, st, c :: cs =>
    match step st (c :: cs) with
    | some (out, rest, st2) =>
      let r := scanF step fuel st2 rest
      (out ++ r.1, r.2)
    | none =>
      let r := scanF step fuel st cs
      (c :: r.1, r.2)

def runScan {σ : Type} (step : σ → Str → Option (Str × Str × σ))
    (st : σ) (s : Str) : Str × σ :=
  scanF step (s.length + 1) st s

/-- Stateless rewrite pass. -/
def grepl (step : Str → Option (Str × Str)) (s : Str) : Str :=
  (runScan (fun _ t => (step t).map (fun p => (p.1, p.2, ()))) () s).1

/-- Guard a step function on a literal pattern: the regexes all start with
a literal, so every step has this shape. -/
def onLitS {σ : Type} (lit : Str) (k : σ → Str → Option (Str × Str × σ))
    (st : σ) (s : Str) : Option (Str × Str × σ) :=
  if sw lit s then k st (List.drop lit.length s) else none

def onLit (lit : Str) (k : Str → Option (Str × Str)) (s : Str) :
    Option (Str × Str) :=
  if sw lit s then k (List.drop lit.length s) else none

/-! ## Math extraction state (PHASE 1 of `parseAndRender`)

`mathBlocks` is the insertion-ordered key/value object of the source;
`counter` is `mathCounter`. -/

structure MathSt where
  counter : Nat
  blocks : List (Str × Str)
deriving DecidableEq

def natDigits (n : Nat) : Str := Nat.toDigits 10 n

def dispKey (n : Nat) : Str := str "__MATH_DISPLAY_" ++ natDigits n ++ str "__"

def inlKey (n : Nat) : Str := str "__MATH_INLINE_" ++ natDigits n ++ str "__"

/-- The stored display-math placeholder markup (TeXRenderer.tsx line 69 etc.). -/
def mkDisplayVal (m : Str) : Str :=
  str "<div class=\"my-6 overflow-x-auto\" data-math=\"" ++ trimJs m ++
    str "\" data-display=\"true\"></div>"

/-- The stored inline-math placeholder markup (TeXRenderer.tsx line 118). -/
def mkInlineVal (m : Str) : Str :=
  str "<span data-math=\"" ++ trimJs m ++ str "\" data-display=\"false\"></span>"

def pushDisplay (st : MathSt) (body rest : Str) : Option (Str × Str × MathSt) :=
  some (dispKey st.counter, rest,
    ⟨st.counter + 1, st.blocks ++ [(dispKey st.counter, mkDisplayVal body)]⟩)

def pushInline (st : MathSt) (body rest : Str) : Option (Str × Str × MathSt) :=
  some (inlKey st.counter, rest,
    ⟨st.counter + 1, st.blocks ++ [(inlKey st.counter, mkInlineVal body)]⟩)

/-- `html.replace(/\\\[([\s\S]*?)\\\]/g, ...)` (line 67). -/
def dispBracketStep : MathSt → Str → Option (Str × Str × MathSt) :=
  onLitS (str "\\[") fun st r =>
    (upToSub (str "\\]") r).bind fun q => pushDisplay st q.1 q.2

/-- `html.replace(/\$\$([\s\S]*?)\$\$/g, ...)` (line 74). -/
def dispDollarsStep : MathSt → Str → Option (Str × Str × MathSt) :=
  onLitS (str "$$") fun st r =>
    (upToSub (str "$$") r).bind fun q => pushDisplay st q.1 q.2

/-- After `\begin{NAME`, consume `*}` or `}` (the `\*?\}` of the patterns). -/
def optStar : Str → Option Str
  | '*' :: '\x7d' :: r => some r
  | '\x7d' :: r => some r
  | _ => none

/-- `\end{NAME` followed by `\*?\}`; returns the rest on a hit. -/
def envEnd (name : Str) (s : Str) : Option Str :=
  if sw (str "\\end\x7b" ++ name) s then
    optStar (List.drop (5 + name.length) s)
  else none

/-- Lazy search for the environment terminator; returns (body, rest). -/
def findEnvEnd (name : Str) : Str → Option (Str × Str)
  | [] => none
  | c :: cs =>
    match envEnd name (c :: cs) with
    | some r => some ([], r)
    | none => (findEnvEnd name cs).map (fun q => (c :: q.1, q.2))

/-- `html.replace(/\\begin\{NAME\*?\}([\s\S]*?)\\end\{NAME\*?\}/g, ...)`
for the display environments of lines 81-114. -/
def envDispStep (name : Str) : MathSt → Str → Option (Str × Str × MathSt) :=
  onLitS (str "\\begin\x7b" ++ name) fun st r =>
    (optStar r).bind fun r1 =>
      (findEnvEnd name r1).bind fun q => pushDisplay st q.1 q.2

def inlineK (st : MathSt) (r : Str) : Option (Str × Str × MathSt) :=
  match r with
  | [] => none
  | c :: cs =>
    if c = '$' then none
    else (upToChar '$' (c :: cs)).bind fun q => pushInline st q.1 q.2

/-- `html.replace(/\$([^$]+?)\$/g, ...)` (line 116): single-dollar inline
math, nonempty body, shortest match. -/
def inlineStep : MathSt → Str → Option (Str × Str × MathSt) :=
  onLitS (str "$") inlineK

/-! ## PHASE 2 — structural stripping steps (lines 124-153) -/

/-- `\CMD{[^}]*}` removal: literal head then everything to the first `}`. -/
def rmArgStep (lit : Str) : Str → Option (Str × Str) :=
  onLit lit fun r => (upToChar '\x7d' r).map (fun q => ([], q.2))

/-- Plain literal removal. -/
def rmLitStep (lit : Str) : Str → Option (Str × Str) :=
  onLit lit fun r => some ([], r)

/-- `\usepackage(?:\[[^\]]*\])?\{[^}]*\}` (line 125). -/
def usepackageStep : Str → Option (Str × Str) :=
  onLit (str "\\usepackage") fun r =>
    match r with
    | '[' :: t =>
      (upToChar ']' t).bind fun q =>
        match q.2 with
        | '\x7b' :: t2 => (upToChar '\x7d' t2).map (fun q2 => ([], q2.2))
        | _ => none
    | '\x7b' :: t => (upToChar '\x7d' t).map (fun q => ([], q.2))
    | _ => none

/-- `\begin{abstract}[\s\S]*?\end{abstract}` (line 128). -/
def abstractStep : Str → Option (Str × Str) :=
  onLit (str "\\begin\x7babstract\x7d") fun r =>
    (upToSub (str "\\end\x7babstract\x7d") r).map (fun q => ([], q.2))

/-- `\begin{table\*?}[\s\S]*?\end{table\*?}` (line 130). -/
def tableStep : Str → Option (Str × Str) :=
  onLit (str "\\begin\x7btable") fun r =>
    (optStar r).bind fun r1 =>
      (findEnvEnd (str "table") r1).map (fun q => ([], q.2))

/-- `\begin{tabular}[^}]*\}[\s\S]*?\end{tabular}` (line 131). -/
def tabularStep : Str → Option (Str × Str) :=
  onLit (str "\\begin\x7btabular\x7d") fun r =>
    (upToChar '\x7d' r).bind fun q =>
      (upToSub (str "\\end\x7btabular\x7d") q.2).map (fun q2 => ([], q2.2))

/-- `\CMD{[^}]*}{[^}]*}` removal (`\setcounter`, `\renewcommand`). -/
def rmTwoArgStep (lit : Str) : Str → Option (Str × Str) :=
  onLit lit fun r =>
    (upToChar '\x7d' r).bind fun q =>
      match q.2 with
      | '\x7b' :: t => (upToChar '\x7d' t).map (fun q2 => ([], q2.2))
      | _ => none

/-- `0\.\d+\\textwidth` removal (line 149). -/
def twStep : Str → Option (Str × Str)
  | c :: d :: r =>
    if c = '0' ∧ d = '.' then
      let ds := r.takeWhile isDigitC
      let r2 := r.dropWhile isDigitC
      if ds.isEmpty then none
      else if sw (str "\\textwidth") r2 then some ([], List.drop 10 r2)
      else none
    else none
  | _ => none

/-- `%[^\n]*` comment removal (line 152). -/
def commentStep : Str → Option (Str × Str)
  | '%' :: r => some ([], r.dropWhile (fun c => !(c = '\n')))
  | _ => none

/-- `html.replace(/^[^a-zA-Z0-9]*\n/gm, '')` (line 153): every
newline-terminated line containing no alphanumeric character is deleted
together with its newline. -/
def stripJunkLines : Nat → Str → Str
  | 0, s => s
  | fuel + 1, s =>
    match upToChar '\n' s with
    | none => s
    | some (line, rest) =>
      if line.all (fun c => !isAlnumC c) then stripJunkLines fuel rest
      else line ++ '\n' :: stripJunkLines fuel rest

/-! ## PHASE 3 — title/author/date (lines 156-174) -/

def escChar (c : Char) : Str :=
  if c = '&' then str "&amp;"
  else if c = '<' then str "&lt;"
  else if c = '>' then str "&gt;"
  else if c = '"' then str "&quot;"
  else if c = '\'' then str "&#039;"
  else [c]

/-- `escapeHtml` (TeXRenderer.tsx lines 10-19). -/
def escapeHtml (s : Str) : Str := s.flatMap escChar

/-- First match of `/\LIT([^}]+)\}/` — the capture of the first position
where the whole pattern (nonempty argument closed by a brace) matches. -/
def findCmdArg (lit : Str) : Str → Option Str
  | [] => none
  | c :: cs =>
    if sw lit (c :: cs) then
      match upToChar '\x7d' (List.drop lit.length (c :: cs)) with
      | some (arg, _) => if arg.isEmpty then findCmdArg lit cs else some arg
      | none => findCmdArg lit cs
    else findCmdArg lit cs

/-- The title block built by lines 160-169. -/
def titleBlock (html : Str) : Str :=
  (match findCmdArg (str "\\title\x7b") html with
   | some t =>
     str "<h1 class=\"text-4xl font-bold mb-3 text-white\">" ++ escapeHtml t ++
       str "</h1>\n"
   | none => []) ++
  (match findCmdArg (str "\\author\x7b") html with
   | some t =>
     str "<p class=\"text-base text-gray-400 mb-1\">" ++ escapeHtml t ++
       str "</p>\n"
   | none => []) ++
  (match findCmdArg (str "\\date\x7b") html with
   | some t =>
     str "<p class=\"text-sm text-gray-500 mb-6\">" ++ escapeHtml t ++
       str "</p>\n"
   | none => [])

/-! ## PHASE 3b/4/5 — footnotes, sections, inline formatting -/

/-- `\footnote\{([^}]+)\}` → superscript marker (line 177); the body is
placed in the `title` attribute unescaped, exactly as in the source. -/
def footnoteStep : Str → Option (Str × Str) :=
  onLit (str "\\footnote\x7b") fun r =>
    (upToChar '\x7d' r).bind fun q =>
      if q.1.isEmpty then none
      else some (str "<sup class=\"text-orange-400 cursor-help\" title=\"" ++
        q.1 ++ str "\">[*]</sup>", q.2)

/-- `\CMD\*?\{([^}]+)\}` → `pre ++ arg ++ post` (sections, lines 180-182). -/
def starArgStep (lit pre post : Str) : Str → Option (Str × Str) :=
  onLit lit fun r =>
    let r1 := match r with
      | '*' :: t => t
      | t => t
    match r1 with
    | '\x7b' :: t =>
      (upToChar '\x7d' t).bind fun q =>
        if q.1.isEmpty then none else some (pre ++ q.1 ++ post, q.2)
    | _ => none

/-- `\CMD\{([^}]+)\}` → `pre ++ arg ++ post` (formatting, lines 185-192). -/
def argWrapStep (lit pre post : Str) : Str → Option (Str × Str) :=
  onLit lit fun r =>
    (upToChar '\x7d' r).bind fun q =>
      if q.1.isEmpty then none else some (pre ++ q.1 ++ post, q.2)

/-! ## Shared helpers of the figure phase (lines 195-342) -/

/-- `replace(/\.[^.]+$/, '')`: strip a final nonempty extension. -/
def stripExt (s : Str) : Str :=
  let ext := s.reverse.takeWhile (fun c => !(c = '.'))
  if ext.isEmpty then s
  else if ext.length = s.length then s
  else List.take (s.length - ext.length - 1) s

/-- ASCII `toLowerCase` (all filenames in play are ASCII). -/
def lowerStr (s : Str) : Str := s.map Char.toLower

/-- Last segment of a '/'-separated path (`path.split('/').pop()`). -/
def lastSeg (fuel : Nat) (s : Str) : Str :=
  match fuel with
  | 0 => s
  | fuel + 1 =>
    match upToChar '/' s with
    | none => s
    | some (_, rest) => lastSeg fuel rest

def imgLookup : List (Str × Str) → Str → Option Str
  | [], _ => none
  | (k, url) :: rest, clean =>
    if lowerStr k = lowerStr clean ||
        lowerStr (stripExt k) = lowerStr (stripExt clean) then some url
    else imgLookup rest clean

/-- `findImageUrl` (lines 232-242): strip the directory and whitespace,
then match mapping keys case-insensitively, exactly or by stem; the
`|| fileName` fallback fires when the cleaned name is empty. -/
def findImageUrl (images : List (Str × Str)) (fileName : Str) : Option Str :=
  let t := (lastSeg (fileName.length + 1) fileName).filter (fun c => !isWsC c)
  let clean := if t.isEmpty then fileName else t
  imgLookup images clean

/-- At-position match of `\includegraphics(?:\s*\[([^\]]*)\])?\s*\{([^}]+)\}`
(the renderer's variant, with optional whitespace before the brace);
returns (width spec or empty, path, rest). -/
def igMatchAt (s : Str) : Option (Str × Str × Str) :=
  if sw (str "\\includegraphics") s then
    let r := List.drop 16 s
    let r1 := r.dropWhile isWsC
    let specRest : Option Str × Str :=
      match r1 with
      | '[' :: t =>
        match upToChar ']' t with
        | some (sp, rest1) => (some sp, rest1)
        | none => (none, r)
      | _ => (none, r)
    let r3 := specRest.2.dropWhile isWsC
    match r3 with
    | '\x7b' :: t =>
      (upToChar '\x7d' t).bind fun q =>
        if q.1.isEmpty then none
        else some (specRest.1.getD [], q.1, q.2)
    | _ => none
  else none

/-- First `\includegraphics...` match inside a string (`String.match`). -/
def findIg : Str → Option (Str × Str)
  | [] => none
  | c :: cs =>
    match igMatchAt (c :: cs) with
    | some (spec, path, _) => some (spec, path)
    | none => findIg cs

/-- First `\caption\{([^}]*)\}` match (possibly empty capture). -/
def findCapArg : Str → Option Str
  | [] => none
  | c :: cs =>
    if sw (str "\\caption\x7b") (c :: cs) then
      match upToChar '\x7d' (List.drop 9 (c :: cs)) with
      | some (arg, _) => some arg
      | none => findCapArg cs
    else findCapArg cs

/-- First `\caption\*?\{([^}]*)\}` match (minipage sub-captions). -/
def findCapStarArg : Str → Option Str
  | [] => none
  | c :: cs =>
    if sw (str "\\caption") (c :: cs) then
      let r := match List.drop 8 (c :: cs) with
        | '*' :: t => t
        | t => t
      match r with
      | '\x7b' :: t =>
        match upToChar '\x7d' t with
        | some (arg, _) => some arg
        | none => findCapStarArg cs
      | _ => findCapStarArg cs
    else findCapStarArg cs

/-! ## JavaScript replacement-string semantics

`jsSubst` interprets a replacement string the way `String.replace` does:
`$$` is a literal dollar, `$&` the matched text, a dollar-backquote the
text before the match, a dollar-apostrophe the text after it; anything
else (including `$1` when the pattern has no capture groups, as is the
case for the placeholder restoration) is literal. -/

def backquoteC : Char := Char.ofNat 96

def jsSubst : Str → Str → Str → Str → Str
  | [], _, _, _ => []
  | c :: r, m, b, a =>
    if c = '$' then
      match r with
      | [] => ['$']
      | d :: r2 =>
        if d = '$' then '$' :: jsSubst r2 m b a
        else if d = '&' then m ++ jsSubst r2 m b a
        else if d = backquoteC then b ++ jsSubst r2 m b a
        else if d = '\'' then a ++ jsSubst r2 m b a
        else '$' :: jsSubst (d :: r2) m b a
    else c :: jsSubst r m b a

/-- Character that does not turn a preceding `$` into a replacement
pattern: anything but `$`, `&`, backquote and `'`. -/
def dollarSafe (c : Char) : Bool :=
  !(c = '$' || c = '&' || c = backquoteC || c = '\'')

/-- A replacement string `replace` inserts verbatim: no dollar sign is
followed by one of the four special characters (a dollar before any other
character, or a trailing dollar, is literal). -/
def noDollarSeq : Str → Bool
  | [] => true
  | c :: r =>
    if c = '$' then
      (match r with
       | [] => true
       | d :: _ => dollarSafe d) && noDollarSeq r
    else noDollarSeq r

/-- `String.replace` with a string pattern: first occurrence only. -/
def jsReplFirst (pat val : Str) : Nat → Str → Str → Str
  | 0, _, s => s
  | _ + 1, _, [] => []
  | fuel + 1, before, c :: cs =>
    if sw pat (c :: cs) then
      let after := List.drop pat.length (c :: cs)
      jsSubst val pat before after ++ after
    else c :: jsReplFirst pat val fuel (before ++ [c]) cs

/-- `String.replace` with a global regex whose source is a literal:
every leftmost non-overlapping occurrence. -/
def jsReplAll (pat val : Str) : Nat → Str → Str → Str
  | 0, _, s => s
  | _ + 1, _, [] => []
  | fuel + 1, before, c :: cs =>
    if sw pat (c :: cs) then
      let after := List.drop pat.length (c :: cs)
      jsSubst val pat before after ++ jsReplAll pat val fuel (before ++ pat) after
    else c :: jsReplAll pat val fuel (before ++ [c]) cs

/-! ## Figure phase (lines 195-342) -/

/-- Main-caption extraction loop (lines 200-208): brace-depth counting
starting right after `\caption{`; the character at the final index is
always excluded (`substring(startIdx, endIdx - 1)`). -/
def braceCap : Str → Nat → Str
  | [], _ => []
  | c :: cs, depth =>
    let d2 := if c = '\x7b' then depth + 1
      else if c = '\x7d' then depth - 1 else depth
    if d2 = 0 then []
    else
      match cs with
      | [] => []
      | _ :: _ => c :: braceCap cs d2

def capMathKey (n : Nat) : Str := str "__CAP_MATH_" ++ natDigits n ++ str "__"

def capInlineStep : (Nat × List (Str × Str)) → Str →
    Option (Str × Str × (Nat × List (Str × Str))) :=
  onLitS (str "$") fun st r =>
    match r with
    | [] => none
    | c :: cs =>
      if c = '$' then none
      else (upToChar '$' (c :: cs)).map fun q =>
        (capMathKey st.1, q.2,
          (st.1 + 1, st.2 ++ [(capMathKey st.1, mkInlineVal q.1)]))

/-- `processCaptionMath` (lines 215-229): local inline-math extraction with
`__CAP_MATH_n__` keys, then first-occurrence string replacement per key. -/
def processCaptionMath (cap : Str) : Str :=
  let r := runScan capInlineStep (0, []) cap
  r.2.2.foldl (fun acc kv => jsReplFirst kv.1 kv.2 (acc.length + 1) [] acc) r.1

def endsWith (p s : Str) : Bool := sw p.reverse s.reverse

/-- At-position match of
`\begin{subfigure}(?:\{[^}]*\\textwidth\})?([\s\S]*?)\end{subfigure}`
(line 245); returns (body, rest). -/
def subfigBody (s : Str) : Option (Str × Str) :=
  if sw (str "\\begin\x7bsubfigure\x7d") s then
    let r := List.drop 17 s
    let withOpt : Option Str :=
      match r with
      | '\x7b' :: t =>
        match upToChar '\x7d' t with
        | some (inner, rest1) =>
          if endsWith (str "\\textwidth") inner then some rest1 else none
        | none => none
      | _ => none
    match withOpt with
    | some r2 =>
      match upToSub (str "\\end\x7bsubfigure\x7d") r2 with
      | some q => some q
      | none => upToSub (str "\\end\x7bsubfigure\x7d") r
    | none => upToSub (str "\\end\x7bsubfigure\x7d") r
  else none

/-- One subfigure flex item (lines 252-272); when the mapping lookup
fails the URL falls back to `/assets/<path-as-written>`. -/
def subfigItem (images : List (Str × Str)) (path : Str)
    (subCap : Option Str) : Str :=
  let cap := match subCap with
    | some t =>
      str "<p class=\"text-sm text-gray-400 mt-2 text-center\">" ++ t ++
        str "</p>"
    | none => []
  let url := match findImageUrl images path with
    | some u => u
    | none => str "/assets/" ++ path
  str "\n            <div class=\"flex-1 min-w-[280px] max-w-[48%]\">\n              <img src=\"" ++
    url ++ str "\" alt=\"" ++ path ++
    str "\" class=\"w-full h-auto rounded-lg\" loading=\"lazy\" />\n              " ++
    cap ++ str "\n            </div>\n          "

def collectSubfigs (images : List (Str × Str)) : Nat → Str → List Str
  | 0, _ => []
  | _ + 1, [] => []
  | fuel + 1, c :: cs =>
    match subfigBody (c :: cs) with
    | some (body, rest) =>
      (match findIg body with
       | some (_, path) => [subfigItem images path (findCapArg body)]
       | none => []) ++ collectSubfigs images fuel rest
    | none => collectSubfigs images fuel cs

/-- At-position match of
`\begin{minipage}(?:\[[^\]]*\])?\{[^}]*\}([\s\S]*?)\end{minipage}`
(line 277); returns (body, rest). -/
def minipBody (s : Str) : Option (Str × Str) :=
  if sw (str "\\begin\x7bminipage\x7d") s then
    let r := List.drop 16 s
    let r1 := match r with
      | '[' :: t =>
        match upToChar ']' t with
        | some (_, rest1) => rest1
        | none => r
      | _ => r
    match r1 with
    | '\x7b' :: t =>
      (upToChar '\x7d' t).bind fun q =>
        upToSub (str "\\end\x7bminipage\x7d") q.2
    | _ => none
  else none

/-- One minipage grid item (lines 284-296); emitted only when the mapping
lookup succeeds, with the sub-caption preprocessed for inline math. -/
def minipItem (path url : Str) (subCap : Option Str) : Str :=
  let cap := match subCap with
    | some t =>
      str "<p class=\"text-sm text-gray-400 mt-2 text-center\">" ++
        processCaptionMath t ++ str "</p>"
    | none => []
  str "\n            <div class=\"w-[48%] min-w-[280px]\">\n              <img src=\"" ++
    url ++ str "\" alt=\"" ++ path ++
    str "\" class=\"w-full h-auto rounded-lg\" loading=\"lazy\" />\n              " ++
    cap ++ str "\n            </div>\n          "

def collectMinips (images : List (Str × Str)) : Nat → Str → List Str
  | 0, _ => []
  | _ + 1, [] => []
  | fuel + 1, c :: cs =>
    match minipBody (c :: cs) with
    | some (body, rest) =>
      (match findIg body with
       | some (_, path) =>
         match findImageUrl images path with
         | some url => [minipItem path url (findCapStarArg body)]
         | none => []
       | none => []) ++ collectMinips images fuel rest
    | none => collectMinips images fuel cs

/-- The width-to-size-class bucketing for a direct figure image
(lines 309-315): substring containment against the width-fraction
literals, medium before small, full by default. -/
def widthClass (spec : Str) : Str :=
  if containsSub (str "0.48") spec || containsSub (str "0.5") spec ||
      containsSub (str "0.6") spec then str "max-w-md w-full"
  else if containsSub (str "0.4") spec || containsSub (str "0.3") spec then
    str "max-w-sm w-full"
  else str "max-w-3xl w-full"

/-- The figure-environment callback (lines 196-341). -/
def figReplace (images : List (Str × Str)) (fig : Str) : Str :=
  let caption := match upToSub (str "\\caption\x7b") fig with
    | some (_, r) => braceCap r 1
    | none => []
  let items0 := collectSubfigs images (fig.length + 1) fig ++
    collectMinips images (fig.length + 1) fig
  let items := if items0.isEmpty then
      match findIg fig with
      | some (spec, path) =>
        match findImageUrl images path with
        | some url =>
          [str "<img src=\"" ++ url ++ str "\" alt=\"" ++ path ++
            str "\" class=\"" ++ widthClass spec ++
            str " h-auto rounded-lg mx-auto\" loading=\"lazy\" />"]
        | none => []
      | none => []
    else items0
  if items.isEmpty then []
  else
    let pc := processCaptionMath caption
    let capHtml := if pc.isEmpty then ([] : Str)
      else str "<p class=\"text-sm text-gray-400 mt-4 text-center italic\">" ++
        pc ++ str "</p>"
    let layout := if items.length = 4 then
        str "grid grid-cols-1 md:grid-cols-2 gap-4"
      else str "flex flex-wrap gap-4 justify-center"
    str "\n      <figure class=\"my-8\">\n        <div class=\"" ++ layout ++
      str "\">\n          " ++ items.flatten ++
      str "\n        </div>\n        " ++ capHtml ++
      str "\n      </figure>\n    "

/-- `\begin{figure}(?:\[[^\]]*\])?([\s\S]*?)\end{figure}` (line 195). -/
def figStep (images : List (Str × Str)) : Str → Option (Str × Str) :=
  onLit (str "\\begin\x7bfigure\x7d") fun r =>
    let withOpt : Option Str :=
      match r with
      | '[' :: t => (upToChar ']' t).map (fun q => q.2)
      | _ => none
    let body := match withOpt with
      | some r1 =>
        match upToSub (str "\\end\x7bfigure\x7d") r1 with
        | some q => some q
        | none => upToSub (str "\\end\x7bfigure\x7d") r
      | none => upToSub (str "\\end\x7bfigure\x7d") r
    body.map fun q => (figReplace images q.1, q.2)

/-! ## Standalone images, lists, bullets, sweep (lines 345-405) -/

def simpleImgLookup : List (Str × Str) → Str → Option Str
  | [], _ => none
  | (k, url) :: rest, fileName =>
    if lowerStr k = lowerStr fileName || containsSub fileName k then some url
    else simpleImgLookup rest fileName

/-- Standalone `\includegraphics` outside figures (lines 345-355):
case-insensitive-or-substring key match, silently dropped otherwise. -/
def standaloneImgStep (images : List (Str × Str)) (s : Str) :
    Option (Str × Str) :=
  (igMatchAt s).map fun m =>
    let l := lastSeg (m.2.1.length + 1) m.2.1
    let base := if l.isEmpty then m.2.1 else l
    let fileName := base.filter (fun c => !isWsC c)
    match simpleImgLookup images fileName with
    | some url =>
      (str "<img src=\"" ++ url ++ str "\" alt=\"" ++ fileName ++
        str "\" class=\"max-w-full h-auto rounded-lg my-4\" loading=\"lazy\" />",
        m.2.2)
    | none => ([], m.2.2)

/-- `items.split(/\\item\s*/)` (lines 360, 375). -/
def splitOnItem : Nat → Str → List Str
  | 0, s => [s]
  | _ + 1, [] => [[]]
  | fuel + 1, c :: cs =>
    if sw (str "\\item") (c :: cs) then
      [] :: splitOnItem fuel ((List.drop 4 cs).dropWhile isWsC)
    else
      match splitOnItem fuel cs with
      | [] => [[c]]
      | p :: ps => (c :: p) :: ps

/-- Per-item transformation (lines 362-366 / 377-381). -/
def listItemTransform (text : Str) : Str :=
  let t := trimJs text
  let t := grepl (argWrapStep (str "\\textbf\x7b") (str "<strong>")
    (str "</strong>")) t
  let t := grepl (argWrapStep (str "\\textit\x7b") (str "<em>")
    (str "</em>")) t
  grepl (rmLitStep (str "\\\\")) t

def itemizeStep : Str → Option (Str × Str) :=
  onLit (str "\\begin\x7bitemize\x7d") fun r =>
    (upToSub (str "\\end\x7bitemize\x7d") r).map fun q =>
      let parts := (splitOnItem (q.1.length + 1) q.1).filter
        (fun s => !(trimJs s).isEmpty)
      let lis := parts.map (fun text =>
        str "<li class=\"ml-4 mb-2 text-gray-200\">• " ++
          listItemTransform text ++ str "</li>")
      (str "<ul class=\"my-4 space-y-1\">" ++ lis.flatten ++ str "</ul>", q.2)

def enumerateStep : Str → Option (Str × Str) :=
  onLit (str "\\begin\x7benumerate\x7d") fun r =>
    (upToSub (str "\\end\x7benumerate\x7d") r).map fun q =>
      let parts := (splitOnItem (q.1.length + 1) q.1).filter
        (fun s => !(trimJs s).isEmpty)
      let lis := parts.enum.map (fun p =>
        str "<li class=\"ml-4 mb-2 text-gray-200\">" ++ natDigits (p.1 + 1) ++
          str ". " ++ listItemTransform p.2 ++ str "</li>")
      (str "<ol class=\"my-4 space-y-1\">" ++ lis.flatten ++ str "</ol>", q.2)

/-- `/^---+$/gm` → divider (line 389). -/
def isHrLine (line : Str) : Bool :=
  decide (3 ≤ line.length) && line.all (fun c => c = '-')

def hrRepl : Str := str "<hr class=\"my-6 border-gray-600\" />"

def hrLines : Nat → Str → Str
  | 0, s => s
  | fuel + 1, s =>
    match upToChar '\n' s with
    | none => if isHrLine s then hrRepl else s
    | some (line, rest) =>
      (if isHrLine line then hrRepl else line) ++ '\n' :: hrLines fuel rest

/-- Optional `(?:\s*\\\\)?` tail of the markdown-bullet pattern. -/
def mdTail (s : Str) : Str :=
  let w := s.dropWhile isWsC
  if sw (str "\\\\") w then List.drop 2 w else s

/-- Body of `/(?:^|\n)\s*-\s+([^\n\\]+)(?:\s*\\\\)?/` after the anchor
(line 393): whitespace, a hyphen, mandatory whitespace, then a nonempty
capture of non-newline non-backslash characters (with the one-character
give-back the greedy `\s+` performs when the run after it is empty). -/
def mdMatchBody (s : Str) : Option (Str × Str) :=
  let r := s.dropWhile isWsC
  match r with
  | '-' :: r2 =>
    let ws1 := r2.takeWhile isWsC
    if ws1.isEmpty then none
    else
      let r3 := r2.dropWhile isWsC
      let cap := r3.takeWhile (fun c => !(c = '\n') && !(c = '\\'))
      if cap.isEmpty then
        match ws1.reverse with
        | [] => none
        | last :: restRev =>
          if restRev.isEmpty then none
          else if last = '\n' then none
          else some ([last], mdTail r3)
      else some (cap, mdTail (List.drop cap.length r3))
  | _ => none

def mdItem (cap : Str) : Str :=
  str "\n<li class=\"ml-4 mb-2 text-gray-200\">• " ++ trimJs cap ++
    str "</li>"

def mdGo : Nat → Str → Str
  | 0, s => s
  | _ + 1, [] => []
  | fuel + 1, c :: cs =>
    if c = '\n' then
      match mdMatchBody cs with
      | some (cap, r) => mdItem cap ++ mdGo fuel r
      | none => c :: mdGo fuel cs
    else c :: mdGo fuel cs

/-- Markdown-style bullet conversion (lines 393-395). -/
def mdBullets (s : Str) : Str :=
  match mdMatchBody s with
  | some (cap, r) => mdItem cap ++ mdGo (r.length + 1) r
  | none => mdGo (s.length + 1) s

/-- One `<li[^>]*>.*?<\/li>\s*` repetition (line 398): returns the matched
text (with its trailing whitespace) and the rest. -/
def liRunOne (s : Str) : Option (Str × Str) :=
  if sw (str "<li") s then
    (upToChar '>' (List.drop 3 s)).bind fun q =>
      (upToSubNoNl (str "</li>") q.2).bind fun q2 =>
        let wsr := q2.2.takeWhile isWsC
        some (str "<li" ++ q.1 ++ '>' :: q2.1 ++ str "</li>" ++ wsr,
          q2.2.dropWhile isWsC)
  else none

def liRuns : Nat → Str → Option (Str × Str)
  | 0, _ => none
  | fuel + 1, s =>
    (liRunOne s).map fun m =>
      match liRuns fuel m.2 with
      | some m2 => (m.1 ++ m2.1, m2.2)
      | none => m

/-- Wrap a maximal run of list items in a list container (lines 398-400). -/
def liWrapStep (s : Str) : Option (Str × Str) :=
  (liRuns (s.length + 1) s).map fun m =>
    (str "<ul class=\"my-4 space-y-1\">" ++ m.1 ++ str "</ul>", m.2)

/-- `\\[a-zA-Z]+(?:\{[^}]*\})?` residual-command removal (line 403). -/
def residCmdStep : Str → Option (Str × Str)
  | '\\' :: r =>
    let name := r.takeWhile isAlphaC
    if name.isEmpty then none
    else
      let r2 := r.dropWhile isAlphaC
      match r2 with
      | '\x7b' :: t =>
        match upToChar '\x7d' t with
        | some (_, rest) => some ([], rest)
        | none => some ([], r2)
      | _ => some ([], r2)
  | _ => none

/-- `\\[^a-zA-Z]` removal (line 404). -/
def residBsStep : Str → Option (Str × Str)
  | '\\' :: c :: r => if isAlphaC c then none else some ([], r)
  | _ => none

/-- `\{([^}]*)\}` → `$1` brace flattening (line 405). -/
def unbraceStep : Str → Option (Str × Str)
  | '\x7b' :: r => (upToChar '\x7d' r).map fun q => (q.1, q.2)
  | _ => none

/-! ## Paragraph wrapping and restoration (lines 409-427) -/

def splitParas : Nat → Str → List Str
  | 0, s => [s]
  | fuel + 1, s =>
    match upToSub (str "\n\n") s with
    | none => [s]
    | some (piece, rest) =>
      piece :: splitParas fuel (rest.dropWhile (fun c => c = '\n'))

def paraWrap (para : Str) : Str :=
  let p := trimJs para
  if p.isEmpty then []
  else match p with
    | '<' :: _ => p
    | _ =>
      str "<p class=\"mb-4 leading-relaxed text-gray-200\">" ++ escapeHtml p ++
        str "</p>"

def paragraphs (s : Str) : Str :=
  (((splitParas (s.length + 1) s).map paraWrap).filter
    (fun p => !p.isEmpty)).flatten

/-- Placeholder restoration (lines 422-425): for each stored block, a
global regex replacement whose pattern is the HTML-escaped key and whose
replacement string is the stored markup (subject to `jsSubst`). -/
def restore (blocks : List (Str × Str)) (result : Str) : Str :=
  blocks.foldl
    (fun acc kv => jsReplAll (escapeHtml kv.1) kv.2 (acc.length + 1) [] acc)
    result

/-! ## The pipeline -/

/-- `\texorpdfstring\{[^}]*\}\{([^}]*)\}` → `$1` (line 64). -/
def texoStep : Str → Option (Str × Str) :=
  onLit (str "\\texorpdfstring\x7b") fun r =>
    (upToChar '\x7d' r).bind fun q =>
      match q.2 with
      | '\x7b' :: t => (upToChar '\x7d' t).map fun q2 => (q2.1, q2.2)
      | _ => none

/-- PHASE 0 and PHASE 1: command unwrapping and math extraction
(lines 63-121), in source order, sharing one counter. -/
def phase01 (tex : Str) : Str × MathSt :=
  let html := grepl texoStep tex
  let r := runScan dispBracketStep ⟨0, []⟩ html
  let r := runScan dispDollarsStep r.2 r.1
  let r := runScan (envDispStep (str "equation")) r.2 r.1
  let r := runScan (envDispStep (str "align")) r.2 r.1
  let r := runScan (envDispStep (str "gather")) r.2 r.1
  let r := runScan (envDispStep (str "eqnarray")) r.2 r.1
  let r := runScan (envDispStep (str "multline")) r.2 r.1
  runScan inlineStep r.2 r.1

def secPre : Str :=
  str "<h2 class=\"text-3xl font-bold mt-10 mb-5 text-white border-b border-orange-500/50 pb-2\">"

def subsecPre : Str :=
  str "<h3 class=\"text-2xl font-semibold mt-8 mb-4 text-gray-100\">"

def subsubsecPre : Str :=
  str "<h4 class=\"text-xl font-semibold mt-6 mb-3 text-gray-200\">"

/-- PHASES 2-14 (lines 124-419): structural stripping, metadata lift,
conversion phases, paragraph wrapping — everything between math
extraction and placeholder restoration, in exact source order.  Returns
`titleHtml ++ paragraphs`. -/
def midPhases (images : List (Str × Str)) (html0 : Str) : Str :=
  let h := grepl (rmArgStep (str "\\documentclass\x7b")) html0
  let h := grepl usepackageStep h
  let h := grepl (rmLitStep (str "\\begin\x7bdocument\x7d")) h
  let h := grepl (rmLitStep (str "\\end\x7bdocument\x7d")) h
  let h := grepl abstractStep h
  let h := grepl (rmLitStep (str "\\maketitle")) h
  let h := grepl tableStep h
  let h := grepl tabularStep h
  let h := grepl (rmArgStep (str "\\geometry\x7b")) h
  let h := grepl (rmArgStep (str "\\pagestyle\x7b")) h
  let h := grepl (rmTwoArgStep (str "\\setcounter\x7b")) h
  let h := grepl (rmTwoArgStep (str "\\renewcommand\x7b")) h
  let h := grepl (rmLitStep (str "\\centering")) h
  let h := grepl (rmLitStep (str "\\hfill")) h
  let h := grepl (rmArgStep (str "\\caption\x7b")) h
  let h := grepl (rmArgStep (str "\\label\x7b")) h
  let h := grepl (rmLitStep (str "[H]")) h
  let h := grepl (rmLitStep (str "[h]")) h
  let h := grepl (rmLitStep (str "[t]")) h
  let h := grepl (rmLitStep (str "[b]")) h
  let h := grepl (rmLitStep (str "[htbp]")) h
  let h := grepl (rmLitStep (str "[!htbp]")) h
  let h := grepl (rmLitStep (str "0.48")) h
  let h := grepl twStep h
  let h := grepl commentStep h
  let h := stripJunkLines (h.length + 1) h
  let tb := titleBlock h
  let h := grepl (rmArgStep (str "\\title\x7b")) h
  let h := grepl (rmArgStep (str "\\author\x7b")) h
  let h := grepl (rmArgStep (str "\\date\x7b")) h
  let h := grepl (rmLitStep (str "\\today")) h
  let h := grepl footnoteStep h
  let h := grepl (starArgStep (str "\\section") secPre (str "</h2>")) h
  let h := grepl (starArgStep (str "\\subsection") subsecPre (str "</h3>")) h
  let h := grepl (starArgStep (str "\\subsubsection") subsubsecPre
    (str "</h4>")) h
  let h := grepl (argWrapStep (str "\\textbf\x7b") (str "<strong>")
    (str "</strong>")) h
  let h := grepl (argWrapStep (str "\\textit\x7b") (str "<em>")
    (str "</em>")) h
  let h := grepl (argWrapStep (str "\\texttt\x7b") (str "<code>")
    (str "</code>")) h
  let h := grepl (argWrapStep (str "\\emph\x7b") (str "<em>")
    (str "</em>")) h
  let h := grepl (argWrapStep (str "\\textsl\x7b") (str "<em>")
    (str "</em>")) h
  let h := grepl (argWrapStep (str "\\textsc\x7b")
    (str "<span class=\"uppercase\">") (str "</span>")) h
  let h := grepl (argWrapStep (str "\\textrm\x7b") [] []) h
  let h := grepl (argWrapStep (str "\\textsf\x7b") [] []) h
  let h := grepl (figStep images) h
  let h := grepl (standaloneImgStep images) h
  let h := grepl itemizeStep h
  let h := grepl enumerateStep h
  let h := hrLines (h.length + 1) h
  let h := mdBullets h
  let h := grepl liWrapStep h
  let h := grepl residCmdStep h
  let h := grepl residBsStep h
  let h := grepl unbraceStep h
  let h := trimJs h
  tb ++ paragraphs h

/-- The transpiler `parseAndRender` (TeXRenderer.tsx lines 58-428):
the full ordered rewrite pipeline. -/
def parseAndRender (tex : Str) (images : List (Str × Str)) : Str :=
  let r := phase01 tex
  restore r.2.blocks (midPhases images r.1)

/-- Decimal value of a digit run. -/
def decToNat (ds : Str) : Nat :=
  ds.foldl (fun acc c => acc * 10 + (c.toNat - '0'.toNat)) 0

/-- One HTML character reference at a position just after an ampersand:
the named references for the five characters `escapeHtml` produces, plus
semicolon-terminated decimal numeric references (an out-of-range code
point maps to the default character rather than U+FFFD).  References
outside this set (hexadecimal, other named entities, legacy semicolonless
forms) are left undecoded by the model; every theorem below applies
`getDataMath` either to a payload containing no ampersand at all — where
a browser's decoding is also the identity, so the model is exact — or to
one of the references modelled here. -/
def charRef (s : Str) : Option (Char × Str) :=
  if sw (str "amp;") s then some ('&', List.drop 4 s)
  else if sw (str "lt;") s then some ('<', List.drop 3 s)
  else if sw (str "gt;") s then some ('>', List.drop 3 s)
  else if sw (str "quot;") s then some ('"', List.drop 5 s)
  else if sw (str "apos;") s then some ('\'', List.drop 5 s)
  else
    match s with
    | '#' :: r =>
      let ds := r.takeWhile isDigitC
      if ds.isEmpty then none
      else
        match r.dropWhile isDigitC with
        | ';' :: r3 => some (Char.ofNat (decToNat ds), r3)
        | _ => none
    | _ => none

/-- HTML character-reference decoding of an attribute value, as the
browser performs it when the fragment string is assigned to `innerHTML`
and the attribute is later read back with `getAttribute`. -/
def attrDecode : Nat → Str → Str
  | 0, s => s
  | _ + 1, [] => []
  | fuel + 1, c :: cs =>
    if c = '&' then
      match charRef cs with
      | some (d, rest) => d :: attrDecode fuel rest
      | none => c :: attrDecode fuel cs
    else c :: attrDecode fuel cs

def attrDecodeR (s : Str) : Str := attrDecode (s.length + 1) s

/-- The TeX payload the hydration step hands to the math renderer:
`elem.getAttribute('data-math')` on the placeholder element after the
fragment string is parsed as HTML.  For a double-quoted attribute the
value ends at the first following double quote, and the browser decodes
HTML character references in it — `getAttribute` yields the decoded
value, not the raw bytes of the fragment string. -/
def getDataMath (html : Str) : Option Str :=
  (upToSub (str "data-math=\"") html).bind fun q =>
    (upToChar '"' q.2).map (fun q2 => attrDecodeR q2.1)

/-! ## Extractor (the ingestion script, src/unnamed/part_003) -/

/-- Character kept by `replace(/[^\w\s-]/g, '')`. -/
def keepSlugC (c : Char) : Bool := isWordC c || isWsC c || c = '-'

def slugFilterStep : Str → Option (Str × Str)
  | [] => none
  | c :: cs => if keepSlugC c then none else some ([], cs)

def slugWsStep : Str → Option (Str × Str)
  | [] => none
  | c :: cs =>
    if isWsC c then some (str "-", cs.dropWhile isWsC) else none

def slugHyStep : Str → Option (Str × Str)
  | [] => none
  | c :: cs =>
    if c = '-' then some (str "-", cs.dropWhile (fun x => x = '-')) else none

/-- `slugify` (part_003 lines 95-102): lower-case, strip `[^\w\s-]`,
collapse `\s+` to a hyphen, collapse `-+`, truncate to 50.
(`Char.toLower` lowers ASCII, which agrees with the JS `toLowerCase` on
the ASCII folder names in play; non-ASCII letters are removed by the
`[^\w\s-]` filter either way.) -/
def slugify (s : Str) : Str :=
  let s1 := s.map Char.toLower
  let s2 := grepl slugFilterStep s1
  let s3 := grepl slugWsStep s2
  let s4 := grepl slugHyStep s3
  s4.take 50

/-- The claim C4 wording of the filter: "every character that is not
alphanumeric, whitespace, or hyphen removed" — written from the spec,
for refinement comparison with `slugify` (which keeps `\w`, i.e. also
the underscore). -/
def slugifySpecClaim (s : Str) : Str :=
  let s1 := s.map Char.toLower
  let s2 := s1.filter (fun c => isAlnumC c || isWsC c || c = '-')
  let s3 := grepl slugWsStep s2
  let s4 := grepl slugHyStep s3
  s4.take 50

/-- Direct one-pass whitespace-run collapse (flag: inside a run). -/
def collapseWsD : Bool → Str → Str
  | _, [] => []
  | inRun, c :: cs =>
    if isWsC c then
      if inRun then collapseWsD true cs else '-' :: collapseWsD true cs
    else c :: collapseWsD false cs

/-- Direct one-pass hyphen-run collapse. -/
def collapseHyD : Bool → Str → Str
  | _, [] => []
  | inRun, c :: cs =>
    if c = '-' then
      if inRun then collapseHyD true cs else '-' :: collapseHyD true cs
    else c :: collapseHyD false cs

/-- The amended-claim description of `slugify`: lower-case, keep only
word characters (alphanumeric or underscore), whitespace and hyphens,
collapse whitespace runs to one hyphen, collapse hyphen runs, take 50. -/
def slugifyAmended (s : Str) : Str :=
  (collapseHyD false (collapseWsD false
    ((s.map Char.toLower).filter keepSlugC))).take 50

/-- First match of `/\\title\{\\textbf\{([^}]+)\}\}/` (part_003 line 24):
the title only matches when wrapped in exactly this bold form. -/
def findTitleBold : Str → Option Str
  | [] => none
  | c :: cs =>
    if sw (str "\\title\x7b\\textbf\x7b") (c :: cs) then
      match upToChar '\x7d' (List.drop 15 (c :: cs)) with
      | some (arg, rest) =>
        if arg.isEmpty then findTitleBold cs
        else
          match rest with
          | '\x7d' :: _ => some arg
          | _ => findTitleBold cs
      | none => findTitleBold cs
    else findTitleBold cs

/-- `title.replace(/\$([^$]*)\$/g, (match) => match.slice(1, -1))`
(part_003 line 26): strip inline-math dollar delimiters. -/
def stripDollarStep : Str → Option (Str × Str) :=
  onLit (str "$") fun r => (upToChar '$' r).map fun q => (q.1, q.2)

/-- The Extractor's title computation (part_003 lines 24-26). -/
def extractTitle (doc : Str) : Str :=
  grepl stripDollarStep
    (match findTitleBold doc with
     | some t => t
     | none => str "Untitled")

/-- At-position match of the Extractor's image regex
`\\includegraphics(?:\s*\[[^\]]*\])?\{([^}]+)\}` (part_003 line 50) —
unlike the renderer's variant, no whitespace is allowed before the brace.
Returns (captured path, rest). -/
def igMatchExAt (s : Str) : Option (Str × Str) :=
  if sw (str "\\includegraphics") s then
    let r := List.drop 16 s
    let r1 := r.dropWhile isWsC
    let afterOpt : Str := match r1 with
      | '[' :: t =>
        match upToChar ']' t with
        | some (_, rest1) => rest1
        | none => r
      | _ => r
    match afterOpt with
    | '\x7b' :: t =>
      (upToChar '\x7d' t).bind fun q =>
        if q.1.isEmpty then none else some (q.1, q.2)
    | _ => none
  else none

def igPathsEx : Nat → Str → List Str
  | 0, _ => []
  | _ + 1, [] => []
  | fuel + 1, c :: cs =>
    match igMatchExAt (c :: cs) with
    | some (path, rest) => path :: igPathsEx fuel rest
    | none => igPathsEx fuel cs

/-- All image paths referenced by the document body, in match order. -/
def igPaths (tex : Str) : List Str := igPathsEx (tex.length + 1) tex

def splitSlash : Nat → Str → List Str
  | 0, s => [s]
  | fuel + 1, s =>
    match upToChar '/' s with
    | none => [s]
    | some (a, rest) => a :: splitSlash fuel rest

/-- `path.join(__dirname, '../public/assets', projectFolder, fileName)`,
abstracted to the project-relative part fed to `fs.existsSync`. -/
def assetsPath (folder file : Str) : Str :=
  str "public/assets/" ++ folder ++ str "/" ++ file

/-- The public URL stored in the mapping (part_003 line 63). -/
def assetsUrl (folder file : Str) : Str :=
  str "/assets/" ++ folder ++ str "/" ++ file

/-- JS object assignment `images[fileName] = ...`: update in place when
the key exists (keeping insertion order), append otherwise. -/
def upsert (acc : List (Str × Str)) (k v : Str) : List (Str × Str) :=
  if acc.any (fun kv => kv.1 = k) then
    acc.map (fun kv => if kv.1 = k then (k, v) else kv)
  else acc ++ [(k, v)]

/-- Loop body of `extractImages` (part_003 lines 54-66): take the first
and last path segments, check existence under the public-assets layout,
and only then add the mapping entry. -/
def addImage (fs : Str → Bool) (acc : List (Str × Str)) (arg : Str) :
    List (Str × Str) :=
  let p := trimJs arg
  let parts := splitSlash (p.length + 1) p
  match parts with
  | [] => acc
  | [_] => acc
  | folder :: rest =>
    let file := rest.getLastD []
    if fs (assetsPath folder file) then upsert acc file (assetsUrl folder file)
    else acc

/-- `extractImages` (part_003 lines 45-70), with the filesystem modelled
as a predicate `fs` standing for `fs.existsSync`. -/
def extractImages (fs : Str → Bool) (tex : Str) : List (Str × Str) :=
  (igPaths tex).foldl (addImage fs) []

/-- The hand-curated cover table of `getPreviewImage` (lines 75-79). -/
def coverImages : List (Str × Str) :=
  [(str "project-1", str "/assets/project1-cover.jpg"),
   (str "project-2", str "/assets/project2-cover.jpg"),
   (str "project-3", str "/assets/project3-cover.jpg")]

def lookupA : List (Str × Str) → Str → Option Str
  | [], _ => none
  | (k, v) :: rest, key => if k = key then some v else lookupA rest key

/-- `getPreviewImage` (part_003 lines 73-93).  The final fallback branch
evaluates a template literal referencing `baseUrl`, an identifier that is
declared nowhere in the script; in JavaScript this evaluation throws a
`ReferenceError`.  The branch is therefore modelled as `Except.error`
rather than as the placeholder path the branch was presumably meant to
produce. -/
def getPreviewImage (images : List (Str × Str)) (slug : Str) :
    Except Str Str :=
  match lookupA coverImages slug with
  | some u => Except.ok u
  | none =>
    match images with
    | kv :: _ => Except.ok kv.2
    | [] => Except.error (str "ReferenceError: baseUrl is not defined")

/-! ## Auxiliary predicates used by theorem statements -/

/-- No occurrence of `pat` starts strictly inside `a` when `a` is followed
by `pat` (windows may look into the following copy of `pat`). -/
def cleanPre (pat : Str) : Str → Bool
  | [] => true
  | c :: cs => !sw pat ((c :: cs) ++ pat) && cleanPre pat cs

/-- A mapping entry of the Extractor: its file was verified to exist under
the public-assets layout for some project folder, and its value is the
corresponding public URL. -/
def imgEntryOk (fs : Str → Bool) (kv : Str × Str) : Prop :=
  ∃ folder, fs (assetsPath folder kv.1) = true ∧ kv.2 = assetsUrl folder kv.1

/-! ## Concrete demonstration inputs used by the claim theorems -/

def demoImages : List (Str × Str) :=
  [(str "img.png", str "/assets/Project-1/img.png")]

/-- A one-figure document whose single image carries a width specifier. -/
def figDoc (spec : Str) : Str :=
  str "\\begin\x7bfigure\x7d\\includegraphics[" ++ spec ++
    str "]\x7bProject-1/img.png\x7d\\end\x7bfigure\x7d"

def figDocNoSpec : Str :=
  str "\\begin\x7bfigure\x7d\\includegraphics\x7bProject-1/img.png\x7d\\end\x7bfigure\x7d"

/-- A figure whose caption sits inside the figure environment. -/
def capFigDoc : Str :=
  str "\\begin\x7bfigure\x7d\\includegraphics\x7bProject-1/img.png\x7d\\caption\x7bA nice caption\x7d\\end\x7bfigure\x7d"

def listDoc : Str := str "\\begin\x7bitemize\x7d\\item A\\end\x7bitemize\x7d"

def ampDoc : Str := str "a & b"

def widthDoc : Str := str "Width 0.48 and 0.3\\textwidth x $0.48$"

/-! # Lemmas -/

lemma sw_head_ne {a c : Char} (p : Str) (r : Str) (h : ¬(a = c)) :
    sw (a :: p) (c :: r) = false := by
  simp [sw]
  intro hh
  exact absurd hh h

lemma sw_self_append (p r : Str) : sw p (p ++ r) = true := by
  induction p with
  | nil => simp [sw]
  | cons a ps ih => simp [sw, ih]

lemma sw_append_of_le (p : Str) : ∀ (x y : Str), p.length ≤ x.length →
    sw p (x ++ y) = sw p x := by
  induction p with
  | nil => intro x y _; simp [sw]
  | cons a ps ih =>
    intro x y h
    cases x with
    | nil => simp at h
    | cons c xs =>
      simp only [List.cons_append, sw, List.append_eq]
      rw [ih xs y (by simpa using h)]

lemma sw_suffix_false {p s t : Str} (ht : t <:+ s)
    (hc : containsSub p s = false) : sw p t = false := by
  induction s with
  | nil =>
    rw [List.suffix_nil.mp ht]
    simpa [containsSub] using hc
  | cons c cs ih =>
    simp only [containsSub, Bool.or_eq_false_iff] at hc
    rcases List.suffix_cons_iff.mp ht with h1 | h2
    · rw [h1]; exact hc.1
    · exact ih h2 hc.2

lemma scanF_id_suffix {σ : Type} (step : σ → Str → Option (Str × Str × σ)) :
    ∀ (fuel : Nat) (s : Str) (st : σ),
      (∀ (st2 : σ) (t : Str), t <:+ s → step st2 t = none) →
      s.length < fuel → scanF step fuel st s = (s, st) := by
  intro fuel
  induction fuel with
  | zero => intro s st _ hlen; exact absurd hlen (Nat.not_lt_zero _)
  | succ f ih =>
    intro s st h hlen
    cases s with
    | nil => rfl
    | cons c cs =>
      have hs : step st (c :: cs) = none := h st (c :: cs) List.suffix_rfl
      have hrec : scanF step f st cs = (cs, st) := by
        apply ih
        · intro st2 t ht
          exact h st2 t (ht.trans (List.suffix_cons c cs))
        · simpa using Nat.lt_of_succ_lt_succ hlen
      simp [scanF, hs, hrec]

lemma scanF_id_trigger {σ : Type} (step : σ → Str → Option (Str × Str × σ))
    (tc : Char) (h0 : ∀ st : σ, step st [] = none)
    (h1 : ∀ (st : σ) (c : Char) (r : Str), ¬(c = tc) → step st (c :: r) = none)
    (fuel : Nat) (s : Str) (st : σ)
    (hs : ∀ c ∈ s, ¬(c = tc)) (hlen : s.length < fuel) :
    scanF step fuel st s = (s, st) := by
  apply scanF_id_suffix step fuel s st _ hlen
  intro st2 t ht
  cases t with
  | nil => exact h0 st2
  | cons c r =>
    exact h1 st2 c r (hs c (ht.subset (List.mem_cons_self c r)))

lemma onLitS_nil {σ : Type} (a : Char) (lit : Str)
    (k : σ → Str → Option (Str × Str × σ)) (st : σ) :
    onLitS (a :: lit) k st [] = none := by
  simp [onLitS, sw]

lemma onLitS_cons_ne {σ : Type} {a c : Char} (lit : Str)
    (k : σ → Str → Option (Str × Str × σ)) (st : σ) (r : Str)
    (h : ¬(a = c)) : onLitS (a :: lit) k st (c :: r) = none := by
  simp [onLitS, sw_head_ne lit r h]

lemma head_sw_false {lit : Str} {tc c : Char} (hne : lit ≠ [])
    (hhd : lit.headD ' ' = tc) (hc : ¬(c = tc)) (r : Str) :
    sw lit (c :: r) = false := by
  cases lit with
  | nil => exact absurd rfl hne
  | cons l0 lt =>
    simp only [List.headD_cons] at hhd
    subst hhd
    exact sw_head_ne lt r (fun hh => hc hh.symm)

/-- A stateful pass whose pattern starts with a fixed character is the
identity (and preserves the state) on a string avoiding that character. -/
lemma runScan_id_onLitS {σ : Type} (lit : Str)
    (k : σ → Str → Option (Str × Str × σ)) (tc : Char)
    (hne : lit ≠ []) (hhd : lit.headD ' ' = tc)
    (s : Str) (st : σ) (hs : ∀ c ∈ s, ¬(c = tc)) :
    runScan (onLitS lit k) st s = (s, st) := by
  apply scanF_id_trigger _ tc
  · intro st2
    cases lit with
    | nil => exact absurd rfl hne
    | cons l0 lt => exact onLitS_nil l0 lt k st2
  · intro st2 c r hc
    simp [onLitS, head_sw_false hne hhd hc]
  · exact hs
  · exact Nat.lt_succ_self _

/-- Stateless version of `runScan_id_onLitS`. -/
lemma grepl_id_onLit (lit : Str) (k : Str → Option (Str × Str)) (tc : Char)
    (hne : lit ≠ []) (hhd : lit.headD ' ' = tc)
    (s : Str) (hs : ∀ c ∈ s, ¬(c = tc)) :
    grepl (onLit lit k) s = s := by
  unfold grepl
  rw [show runScan (fun _ t => ((onLit lit k t).map (fun p => (p.1, p.2, ())))) () s
      = (s, ()) from ?_]
  apply scanF_id_trigger _ tc
  · intro st2
    cases lit with
    | nil => exact absurd rfl hne
    | cons l0 lt => simp [onLit, sw]
  · intro st2 c r hc
    simp [onLit, head_sw_false hne hhd hc]
  · exact hs
  · exact Nat.lt_succ_self _

/-- A literal-guarded stateful pass is the identity when the literal does
not occur anywhere in the input. -/
lemma runScan_id_noSub {σ : Type} (lit : Str)
    (k : σ → Str → Option (Str × Str × σ)) (s : Str) (st : σ)
    (hc : containsSub lit s = false) :
    runScan (onLitS lit k) st s = (s, st) := by
  apply scanF_id_suffix
  · intro st2 t ht
    simp [onLitS, sw_suffix_false ht hc]
  · exact Nat.lt_succ_self _

/-- Stateless version of `runScan_id_noSub`. -/
lemma grepl_id_noSub (lit : Str) (k : Str → Option (Str × Str)) (s : Str)
    (hc : containsSub lit s = false) :
    grepl (onLit lit k) s = s := by
  unfold grepl
  rw [show runScan (fun _ t => ((onLit lit k t).map (fun p => (p.1, p.2, ())))) () s
      = (s, ()) from ?_]
  apply scanF_id_suffix
  · intro st2 t ht
    simp [onLit, sw_suffix_false ht hc]
  · exact Nat.lt_succ_self _

lemma sw_pre_true {p1 p2 t : Str} (h : sw (p1 ++ p2) t = true) :
    sw p1 t = true := by
  induction p1 generalizing t with
  | nil => simp [sw]
  | cons a pr ih =>
    cases t with
    | nil => simp [sw] at h
    | cons c t2 =>
      simp only [List.cons_append, sw, Bool.and_eq_true] at h ⊢
      exact ⟨h.1, ih h.2⟩

/-- A longer pattern occurs nowhere when a prefix of it occurs nowhere. -/
lemma containsSub_of_pre (p1 p2 s : Str) (h : containsSub p1 s = false) :
    containsSub (p1 ++ p2) s = false := by
  induction s with
  | nil =>
    simp only [containsSub] at h ⊢
    cases hx : sw (p1 ++ p2) [] with
    | false => rfl
    | true => rw [sw_pre_true hx] at h; exact h
  | cons c cs ih =>
    simp only [containsSub, Bool.or_eq_false_iff] at h ⊢
    refine ⟨?_, ih h.2⟩
    cases hx : sw (p1 ++ p2) (c :: cs) with
    | false => rfl
    | true => exact absurd (sw_pre_true hx) (by simp [h.1])

lemma upToChar_append (x : Char) (m r : Str) (hm : ∀ c ∈ m, ¬(c = x)) :
    upToChar x (m ++ x :: r) = some (m, r) := by
  induction m with
  | nil => simp [upToChar]
  | cons c m2 ih =>
    have hc : ¬(c = x) := hm c (List.mem_cons_self c m2)
    simp only [List.cons_append, upToChar, hc, if_false, List.append_eq]
    rw [ih (fun d hd => hm d (List.mem_cons_of_mem c hd))]
    rfl

lemma upToChar_none (x : Char) (s : Str) (h : ∀ c ∈ s, ¬(c = x)) :
    upToChar x s = none := by
  induction s with
  | nil => rfl
  | cons c cs ih =>
    have hc : ¬(c = x) := h c (List.mem_cons_self c cs)
    simp only [upToChar, hc, if_false]
    rw [ih (fun d hd => h d (List.mem_cons_of_mem c hd))]
    rfl

lemma upToSub_concat (pat a r : Str) (hne : pat ≠ [])
    (ha : cleanPre pat a = true) :
    upToSub pat (a ++ (pat ++ r)) = some (a, r) := by
  induction a with
  | nil =>
    cases pat with
    | nil => exact absurd rfl hne
    | cons p0 pr =>
      have hself : sw (p0 :: pr) ((p0 :: pr) ++ r) = true :=
        sw_self_append (p0 :: pr) r
      simp only [List.cons_append] at hself
      simp only [List.nil_append, upToSub, List.cons_append, hself, if_true]
      have : List.drop (p0 :: pr).length ((p0 :: pr) ++ r) = r :=
        List.drop_left (p0 :: pr) r
      simp only [List.cons_append] at this
      simp [this]
      exact hself
  | cons c a2 ih =>
    simp only [cleanPre, Bool.and_eq_true] at ha
    have hsw : sw pat ((c :: a2) ++ (pat ++ r)) = false := by
      rw [← List.append_assoc]
      rw [sw_append_of_le pat ((c :: a2) ++ pat) r
        (by simp; omega)]
      simpa using ha.1
    simp only [List.cons_append] at hsw
    simp only [List.cons_append, upToSub, hsw, if_false, List.append_eq]
    rw [ih ha.2]
    rfl

/-- The `$$`-extraction pass does nothing on a string with no adjacent
dollar pair. -/
lemma runScan_id_dollars (s : Str) (st : MathSt)
    (hc : containsSub (str "$$") s = false) :
    runScan dispDollarsStep st s = (s, st) := by
  apply scanF_id_suffix
  · intro st2 t ht
    unfold dispDollarsStep
    cases t with
    | nil => exact onLitS_nil '$' (str "$") _ st2
    | cons c r =>
      have := sw_suffix_false ht hc
      simp [onLitS, this]
  · exact Nat.lt_succ_self _

lemma inlineStep_nil (st : MathSt) : inlineStep st [] = none := by
  unfold inlineStep
  exact onLitS_nil '$' (str "") inlineK st

lemma inlineStep_ne (st : MathSt) (c : Char) (r : Str) (hc : ¬(c = '$')) :
    inlineStep st (c :: r) = none := by
  unfold inlineStep
  exact onLitS_cons_ne (str "") inlineK st r (fun hh => hc hh.symm)

/-- The input family `x $m$ y` (no dollar inside `m`, `m` nonempty)
contains no `$$` substring. -/
lemma no_dd_aux (m : Str) (hm : ∀ c ∈ m, ¬(c = '$')) :
    containsSub (str "$$") (m ++ '$' :: ' ' :: 'y' :: []) = false := by
  induction m with
  | nil => decide
  | cons c m2 ih =>
    have hc : ¬(c = '$') := hm c (List.mem_cons_self c m2)
    have hsw : sw (str "$$") (c :: (m2 ++ '$' :: ' ' :: 'y' :: [])) = false :=
      head_sw_false (by decide) (by decide) (fun hh => hc hh) _
    have hrec := ih (fun d hd => hm d (List.mem_cons_of_mem c hd))
    simp only [List.cons_append, containsSub, List.append_eq]
    simp only [List.cons_append] at hsw
    rw [hsw, hrec]
    rfl

lemma no_dd (m : Str) (hne : m ≠ []) (hm : ∀ c ∈ m, ¬(c = '$')) :
    containsSub (str "$$")
      ('x' :: ' ' :: '$' :: (m ++ '$' :: ' ' :: 'y' :: [])) = false := by
  have h1 : sw (str "$$") ('x' :: (' ' :: '$' :: (m ++ '$' :: ' ' :: 'y' :: [])))
      = false := @head_sw_false (str "$$") '$' 'x' (by decide) (by decide)
        (by decide) _
  have h2 : sw (str "$$") (' ' :: ('$' :: (m ++ '$' :: ' ' :: 'y' :: [])))
      = false := @head_sw_false (str "$$") '$' ' ' (by decide) (by decide)
        (by decide) _
  have h3 : sw (str "$$") ('$' :: (m ++ '$' :: ' ' :: 'y' :: [])) = false := by
    cases m with
    | nil => exact absurd rfl hne
    | cons c m2 =>
      have hc : ¬(c = '$') := hm c (List.mem_cons_self c m2)
      show sw ('$' :: '$' :: ([] : Str))
        ('$' :: ((c :: m2) ++ '$' :: ' ' :: 'y' :: [])) = false
      simp only [List.cons_append, sw]
      have : ('$' == c) = false := by
        simp
        exact fun hh => hc hh.symm
      rw [this]
      simp
  simp only [containsSub, h1, h2, h3, Bool.false_or]
  exact no_dd_aux m hm

/-- A pattern containing no dollar sign cannot begin a match that crosses
into a region starting with `$`. -/
lemma sw_append_dlr (pat : Str) (hnd : ∀ c ∈ pat, ¬(c = '$')) :
    ∀ (t r : Str), sw pat t = false → sw pat (t ++ '$' :: r) = false := by
  induction pat with
  | nil => intro t r h; simp [sw] at h
  | cons a pr ih =>
    intro t r h
    cases t with
    | nil =>
      simp only [List.nil_append]
      have ha : ¬(a = '$') := hnd a (List.mem_cons_self a pr)
      exact sw_head_ne pr r ha
    | cons c t2 =>
      simp only [List.cons_append, sw, List.append_eq] at h ⊢
      cases hac : (a == c) with
      | false => rfl
      | true =>
        simp only [hac, Bool.true_and] at h ⊢
        exact ih (fun d hd2 => hnd d (List.mem_cons_of_mem a hd2)) t2 r h

/-- Appending the concrete tail `$ y` to a string avoiding a dollar-free,
backslash-headed pattern cannot create an occurrence. -/
lemma noSub_tail (pat : Str) (hne : pat ≠ []) (hhd : pat.headD ' ' = '\\')
    (hnd : ∀ c ∈ pat, ¬(c = '$')) :
    ∀ m : Str, containsSub pat m = false →
      containsSub pat (m ++ '$' :: ' ' :: 'y' :: []) = false := by
  intro m
  induction m with
  | nil =>
    intro _
    have h1 : sw pat ('$' :: (' ' :: 'y' :: [])) = false :=
      @head_sw_false pat '\\' '$' hne hhd (by decide) _
    have h2 : sw pat (' ' :: ('y' :: [])) = false :=
      @head_sw_false pat '\\' ' ' hne hhd (by decide) _
    have h3 : sw pat ('y' :: ([] : Str)) = false :=
      @head_sw_false pat '\\' 'y' hne hhd (by decide) _
    have h4 : sw pat [] = false := by
      cases pat with
      | nil => exact absurd rfl hne
      | cons a pr => rfl
    simp [containsSub, h1, h2, h3, h4]
  | cons c m2 ih =>
    intro hm
    simp only [containsSub, Bool.or_eq_false_iff] at hm
    have hcross : sw pat ((c :: m2) ++ '$' :: ' ' :: 'y' :: []) = false :=
      sw_append_dlr pat hnd (c :: m2) (' ' :: 'y' :: []) hm.1
    simp only [List.cons_append, List.append_eq] at hcross
    simp only [List.cons_append, containsSub, List.append_eq, hcross,
      Bool.false_or]
    exact ih hm.2

/-- Lifting absence of a backslash-headed, dollar-free pattern from the
math body to the whole input `x $m$ y`. -/
lemma containsSub_wrap (pat : Str) (hne : pat ≠ []) (hhd : pat.headD ' ' = '\\')
    (hnd : ∀ c ∈ pat, ¬(c = '$')) (m : Str)
    (hm : containsSub pat m = false) :
    containsSub pat ('x' :: ' ' :: '$' :: (m ++ '$' :: ' ' :: 'y' :: []))
      = false := by
  have hx : sw pat ('x' :: (' ' :: '$' :: (m ++ '$' :: ' ' :: 'y' :: [])))
      = false := @head_sw_false pat '\\' 'x' hne hhd (by decide) _
  have hsp : sw pat (' ' :: ('$' :: (m ++ '$' :: ' ' :: 'y' :: []))) = false :=
    @head_sw_false pat '\\' ' ' hne hhd (by decide) _
  have hdl : sw pat ('$' :: (m ++ '$' :: ' ' :: 'y' :: [])) = false :=
    @head_sw_false pat '\\' '$' hne hhd (by decide) _
  simp only [containsSub, hx, hsp, hdl, Bool.false_or]
  exact noSub_tail pat hne hhd hnd m hm

/-- Inline-math extraction on `x $m$ y`: the math body is captured whole
and replaced by the next placeholder key. -/
lemma inline_scan (m : Str) (hne : m ≠ []) (hm : ∀ c ∈ m, ¬(c = '$'))
    (st : MathSt) :
    ∀ fuel, m.length + 6 < fuel →
    scanF inlineStep fuel st ('x' :: ' ' :: '$' :: (m ++ '$' :: ' ' :: 'y' :: []))
      = ('x' :: ' ' :: (inlKey st.counter ++ ' ' :: 'y' :: []),
         ⟨st.counter + 1,
          st.blocks ++ [(inlKey st.counter, mkInlineVal m)]⟩) := by
  intro fuel hf
  obtain ⟨g, rfl⟩ : ∃ g, fuel = g + 4 := ⟨fuel - 4, by omega⟩
  have e1 : inlineStep st ('x' :: (' ' :: '$' :: (m ++ '$' :: ' ' :: 'y' :: [])))
      = none := inlineStep_ne st 'x' _ (by decide)
  have e2 : inlineStep st (' ' :: ('$' :: (m ++ '$' :: ' ' :: 'y' :: [])))
      = none := inlineStep_ne st ' ' _ (by decide)
  have e3 : inlineStep st ('$' :: (m ++ '$' :: ' ' :: 'y' :: []))
      = some (inlKey st.counter, ' ' :: 'y' :: [],
        ⟨st.counter + 1,
         st.blocks ++ [(inlKey st.counter, mkInlineVal m)]⟩) := by
    unfold inlineStep onLitS
    have hsw : sw (str "$") ('$' :: (m ++ '$' :: ' ' :: 'y' :: [])) = true := by
      show sw ('$' :: ([] : Str)) _ = true
      simp [sw]
    rw [hsw]
    simp only [if_true]
    show inlineK st (m ++ '$' :: ' ' :: 'y' :: []) = _
    cases m with
    | nil => exact absurd rfl hne
    | cons c m2 =>
      have hc : ¬(c = '$') := hm c (List.mem_cons_self c m2)
      have hup := upToChar_append '$' (c :: m2) (' ' :: 'y' :: []) hm
      simp only [List.cons_append] at hup
      simp only [List.cons_append, inlineK, hc, if_false, hup]
      rfl
  have e4 : scanF inlineStep (g + 1) ⟨st.counter + 1,
      st.blocks ++ [(inlKey st.counter, mkInlineVal m)]⟩ (' ' :: 'y' :: [])
      = (' ' :: 'y' :: [], ⟨st.counter + 1,
        st.blocks ++ [(inlKey st.counter, mkInlineVal m)]⟩) := by
    apply scanF_id_trigger _ '$'
    · intro st2; exact inlineStep_nil st2
    · intro st2 c r hc; exact inlineStep_ne st2 c r hc
    · decide
    · simp only [List.length_cons, List.length_nil]; omega
  rw [show g + 4 = (g + 3) + 1 from rfl]
  simp only [scanF, e1]
  simp only [e2, e3, e4]

/-- PHASES 0/1 on `x $m$ y` with `m` free of dollars and of the
extraction-trigger substrings: nothing happens until inline extraction,
which stores `m` under the first placeholder key.  `m` may contain
arbitrary backslash commands (TeX macros, braces) — only the literal
trigger substrings of the earlier passes are excluded. -/
lemma phase01_run (m : Str) (hne : m ≠ []) (hd : ∀ c ∈ m, ¬(c = '$'))
    (htx : containsSub (str "\\texorpdfstring\x7b") m = false)
    (hbk : containsSub (str "\\[") m = false)
    (hbg : containsSub (str "\\begin\x7b") m = false) :
    phase01 ('x' :: ' ' :: '$' :: (m ++ '$' :: ' ' :: 'y' :: [])) =
      ('x' :: ' ' :: (inlKey 0 ++ ' ' :: 'y' :: []),
       ⟨1, [(inlKey 0, mkInlineVal m)]⟩) := by
  have wtx := containsSub_wrap (str "\\texorpdfstring\x7b") (by decide)
    (by decide) (by decide) m htx
  have wbk := containsSub_wrap (str "\\[") (by decide) (by decide) (by decide)
    m hbk
  have wbg := containsSub_wrap (str "\\begin\x7b") (by decide) (by decide)
    (by decide) m hbg
  have h0 : grepl texoStep ('x' :: ' ' :: '$' :: (m ++ '$' :: ' ' :: 'y' :: []))
      = ('x' :: ' ' :: '$' :: (m ++ '$' :: ' ' :: 'y' :: [])) := by
    unfold texoStep
    exact grepl_id_noSub _ _ _ wtx
  have h1 : runScan dispBracketStep (⟨0, []⟩ : MathSt)
      ('x' :: ' ' :: '$' :: (m ++ '$' :: ' ' :: 'y' :: []))
      = (('x' :: ' ' :: '$' :: (m ++ '$' :: ' ' :: 'y' :: [])), ⟨0, []⟩) := by
    unfold dispBracketStep
    exact runScan_id_noSub _ _ _ _ wbk
  have h2 := runScan_id_dollars
    ('x' :: ' ' :: '$' :: (m ++ '$' :: ' ' :: 'y' :: [])) ⟨0, []⟩
    (no_dd m hne hd)
  have henv : ∀ name : Str,
      containsSub (str "\\begin\x7b" ++ name)
        ('x' :: ' ' :: '$' :: (m ++ '$' :: ' ' :: 'y' :: [])) = false →
      runScan (envDispStep name) (⟨0, []⟩ : MathSt)
        ('x' :: ' ' :: '$' :: (m ++ '$' :: ' ' :: 'y' :: []))
        = (('x' :: ' ' :: '$' :: (m ++ '$' :: ' ' :: 'y' :: [])), ⟨0, []⟩) := by
    intro name hc
    unfold envDispStep
    exact runScan_id_noSub _ _ _ _ hc
  have h3 := henv (str "equation") (containsSub_of_pre _ _ _ wbg)
  have h4 := henv (str "align") (containsSub_of_pre _ _ _ wbg)
  have h5 := henv (str "gather") (containsSub_of_pre _ _ _ wbg)
  have h6 := henv (str "eqnarray") (containsSub_of_pre _ _ _ wbg)
  have h7 := henv (str "multline") (containsSub_of_pre _ _ _ wbg)
  have h8 : runScan inlineStep (⟨0, []⟩ : MathSt)
      ('x' :: ' ' :: '$' :: (m ++ '$' :: ' ' :: 'y' :: []))
      = ('x' :: ' ' :: (inlKey 0 ++ ' ' :: 'y' :: []),
         ⟨1, [(inlKey 0, mkInlineVal m)]⟩) := by
    unfold runScan
    have hl : ('x' :: ' ' :: '$' :: (m ++ '$' :: ' ' :: 'y' :: [])).length
        = m.length + 6 := by simp
    rw [hl]
    exact inline_scan m hne hd ⟨0, []⟩ (m.length + 6 + 1) (by omega)
  simp only [phase01, h0, h1, h2, h3, h4, h5, h6, h7, h8]

lemma mem_trimJs {c : Char} {s : Str} (h : c ∈ trimJs s) : c ∈ s := by
  unfold trimJs at h
  have h1 := List.mem_reverse.mp h
  have h2 := (List.dropWhile_sublist isWsC).subset h1
  have h3 := List.mem_reverse.mp h2
  exact (List.dropWhile_sublist isWsC).subset h3

lemma jsSubst_no_dollar (v : Str) (hv : ∀ c ∈ v, ¬(c = '$'))
    (mt b a : Str) : jsSubst v mt b a = v := by
  induction v with
  | nil => rfl
  | cons c r ih =>
    have hc : ¬(c = '$') := hv c (List.mem_cons_self c r)
    rw [jsSubst.eq_def]
    simp only [hc, if_false]
    rw [ih (fun d hd2 => hv d (List.mem_cons_of_mem c hd2))]

/-- `replace` inserts a `noDollarSeq` replacement string verbatim:
dollars not followed by `$`, `&`, backquote or `'` are literal. -/
lemma jsSubst_noSeq (v : Str) (hv : noDollarSeq v = true) (mt b a : Str) :
    jsSubst v mt b a = v := by
  induction v with
  | nil => rfl
  | cons c r ih =>
    by_cases hc : c = '$'
    · subst hc
      cases r with
      | nil =>
        rw [jsSubst.eq_def]
        simp
      | cons d r2 =>
        simp only [noDollarSeq, eq_self_iff_true, if_true,
          Bool.and_eq_true] at hv
        obtain ⟨hd1, hd2⟩ := hv
        have h1 : ¬(d = '$') := by
          intro h; subst h; exact absurd hd1 (by decide)
        have h2 : ¬(d = '&') := by
          intro h; subst h; exact absurd hd1 (by decide)
        have h3 : ¬(d = backquoteC) := by
          intro h; subst h; exact absurd hd1 (by decide)
        have h4 : ¬(d = '\'') := by
          intro h; subst h; exact absurd hd1 (by decide)
        rw [jsSubst.eq_def]
        simp only [eq_self_iff_true, if_true, h1, h2, h3, h4, if_false]
        rw [ih hd2]
    · simp only [noDollarSeq, hc, if_false] at hv
      rw [jsSubst.eq_def]
      simp only [hc, if_false]
      rw [ih hv]

lemma jsReplAll_id (pat val : Str) :
    ∀ (fuel : Nat) (before s : Str), containsSub pat s = false →
      jsReplAll pat val fuel before s = s := by
  intro fuel
  induction fuel with
  | zero => intro before s _; rfl
  | succ f ih =>
    intro before s h
    cases s with
    | nil => rfl
    | cons c cs =>
      simp only [containsSub, Bool.or_eq_false_iff] at h
      simp only [jsReplAll, h.1, Bool.false_eq_true, if_false]
      rw [ih _ cs h.2]

/-- Literal global replacement on a string with exactly one marked
occurrence of the pattern. -/
lemma jsReplAll_concat (pat val : Str) (hne : pat ≠ []) :
    ∀ (a b before : Str) (fuel : Nat),
      (a ++ (pat ++ b)).length < fuel →
      cleanPre pat a = true → containsSub pat b = false →
      jsReplAll pat val fuel before (a ++ (pat ++ b)) =
        a ++ (jsSubst val pat (before ++ a) b ++ b) := by
  intro a
  induction a with
  | nil =>
    intro b before fuel hf ha hb
    obtain ⟨f, rfl⟩ : ∃ f, fuel = f + 1 := ⟨fuel - 1, by omega⟩
    cases pat with
    | nil => exact absurd rfl hne
    | cons p0 pr =>
      have hsw : sw (p0 :: pr) (p0 :: (pr ++ b)) = true := by
        have := sw_self_append (p0 :: pr) b
        simp only [List.cons_append] at this
        exact this
      have hdrop : List.drop (p0 :: pr).length (p0 :: (pr ++ b)) = b := by
        have := List.drop_left (p0 :: pr) b
        simp only [List.cons_append] at this
        exact this
      show jsReplAll (p0 :: pr) val (f + 1) before (p0 :: (pr ++ b)) =
        [] ++ (jsSubst val (p0 :: pr) (before ++ []) b ++ b)
      simp only [jsReplAll, hsw, hdrop, if_true]
      rw [jsReplAll_id _ _ f (before ++ (p0 :: pr)) b hb]
      simp
  | cons c a2 ih =>
    intro b before fuel hf ha hb
    obtain ⟨f, rfl⟩ : ∃ f, fuel = f + 1 := ⟨fuel - 1, by omega⟩
    simp only [cleanPre, Bool.and_eq_true] at ha
    have hsw : sw pat ((c :: a2) ++ (pat ++ b)) = false := by
      rw [← List.append_assoc]
      rw [sw_append_of_le pat ((c :: a2) ++ pat) b (by simp; omega)]
      simpa using ha.1
    simp only [List.cons_append] at hsw
    simp only [List.cons_append, jsReplAll, hsw, Bool.false_eq_true, if_false,
      List.append_eq]
    rw [ih b (before ++ [c]) f (by simp at hf ⊢; omega) ha.2 hb]
    simp

/-- Transpiling `x $m$ y` for any nonempty math body `m` free of dollars
and of the display-extraction trigger substrings (`\texorpdfstring{`,
`\[`, `\begin{`): the output is the wrapped paragraph with the stored
inline-math placeholder markup inserted verbatim, exactly once.  `m` may
contain arbitrary TeX macros — backslashes and braces are inert here. -/
lemma master_inline (m : Str) (hne : m ≠ []) (hd : ∀ c ∈ m, ¬(c = '$'))
    (htx : containsSub (str "\\texorpdfstring\x7b") m = false)
    (hbk : containsSub (str "\\[") m = false)
    (hbg : containsSub (str "\\begin\x7b") m = false) :
    parseAndRender ('x' :: ' ' :: '$' :: (m ++ '$' :: ' ' :: 'y' :: [])) [] =
      str "<p class=\"mb-4 leading-relaxed text-gray-200\">x " ++
        (mkInlineVal m ++ str " y</p>") := by
  have hv : ∀ c ∈ mkInlineVal m, ¬(c = '$') := by
    intro c hc
    unfold mkInlineVal at hc
    rcases List.mem_append.mp hc with h | h
    · rcases List.mem_append.mp h with h2 | h2
      · intro he; subst he; revert h2; decide
      · exact fun he => hd c (mem_trimJs h2) he
    · intro he; subst he; revert h; decide
  have hmid : midPhases [] ('x' :: ' ' :: (inlKey 0 ++ ' ' :: 'y' :: [])) =
      str "<p class=\"mb-4 leading-relaxed text-gray-200\">x " ++
        (inlKey 0 ++ str " y</p>") := by decide
  simp only [parseAndRender, phase01_run m hne hd htx hbk hbg]
  rw [hmid]
  unfold restore
  simp only [List.foldl]
  rw [show escapeHtml (inlKey 0) = inlKey 0 from by decide]
  rw [jsReplAll_concat (inlKey 0) (mkInlineVal m) (by decide)
    (str "<p class=\"mb-4 leading-relaxed text-gray-200\">x ") (str " y</p>")
    [] _ (Nat.lt_succ_self _) (by decide) (by decide)]
  rw [jsSubst_no_dollar (mkInlineVal m) hv]

lemma scanF_consume {σ : Type} (step : σ → Str → Option (Str × Str × σ))
    (fuel : Nat) (st st2 : σ) (c : Char) (cs out rest : Str)
    (h : step st (c :: cs) = some (out, rest, st2)) :
    scanF step (fuel + 1) st (c :: cs) =
      (out ++ (scanF step fuel st2 rest).1, (scanF step fuel st2 rest).2) := by
  simp [scanF, h]

lemma scanF_skip {σ : Type} (step : σ → Str → Option (Str × Str × σ))
    (fuel : Nat) (st : σ) (c : Char) (cs : Str)
    (h : step st (c :: cs) = none) :
    scanF step (fuel + 1) st (c :: cs) =
      (c :: (scanF step fuel st cs).1, (scanF step fuel st cs).2) := by
  simp [scanF, h]

/-- A pass whose step erases one marked occurrence and cannot fire
anywhere else removes exactly that occurrence. -/
lemma scanF_mid {σ : Type} (step : σ → Str → Option (Str × Str × σ))
    (st : σ) (lit s : Str) (tc : Char) (hlit : lit ≠ [])
    (hmatch : step st (lit ++ s) = some ([], s, st))
    (hnil : ∀ st2 : σ, step st2 [] = none)
    (hnone : ∀ (st2 : σ) (c : Char) (r : Str), ¬(c = tc) →
      step st2 (c :: r) = none)
    (hs : ∀ c ∈ s, ¬(c = tc)) :
    ∀ (p : Str) (fuel : Nat), (p ++ (lit ++ s)).length < fuel →
      (∀ c ∈ p, ¬(c = tc)) →
      scanF step fuel st (p ++ (lit ++ s)) = (p ++ s, st) := by
  intro p
  induction p with
  | nil =>
    intro fuel hf hp
    obtain ⟨f, rfl⟩ : ∃ f, fuel = f + 1 := ⟨fuel - 1, by omega⟩
    simp only [List.nil_append] at hf ⊢
    cases lit with
    | nil => exact absurd rfl hlit
    | cons l0 lt =>
      have hm2 : step st (l0 :: (lt ++ s)) = some ([], s, st) := by
        simpa using hmatch
      rw [show (l0 :: lt) ++ s = l0 :: (lt ++ s) from rfl]
      rw [scanF_consume step f st st l0 (lt ++ s) [] s hm2]
      rw [scanF_id_trigger step tc hnil hnone f s st hs (by simp at hf; omega)]
      simp
  | cons c p2 ih =>
    intro fuel hf hp
    obtain ⟨f, rfl⟩ : ∃ f, fuel = f + 1 := ⟨fuel - 1, by omega⟩
    have hc : ¬(c = tc) := hp c (List.mem_cons_self c p2)
    rw [show (c :: p2) ++ (lit ++ s) = c :: (p2 ++ (lit ++ s)) from rfl]
    rw [scanF_skip step f st c (p2 ++ (lit ++ s)) (hnone st c _ hc)]
    rw [ih f (by simp at hf ⊢; omega)
      (fun d hd2 => hp d (List.mem_cons_of_mem c hd2))]
    simp

/-- `grepl` version of `scanF_mid` for stateless steps. -/
lemma grepl_mid (step : Str → Option (Str × Str)) (lit s : Str) (tc : Char)
    (hlit : lit ≠ [])
    (hmatch : step (lit ++ s) = some ([], s))
    (hnil : step [] = none)
    (hnone : ∀ (c : Char) (r : Str), ¬(c = tc) → step (c :: r) = none)
    (p : Str) (hp : ∀ c ∈ p, ¬(c = tc)) (hs : ∀ c ∈ s, ¬(c = tc)) :
    grepl step (p ++ (lit ++ s)) = p ++ s := by
  unfold grepl runScan
  rw [scanF_mid (fun _ t => (step t).map (fun q => (q.1, q.2, ()))) () lit s tc
    hlit (by simp [hmatch]) (fun _ => by simp [hnil])
    (fun _ c r hc => by simp [hnone c r hc]) hs p _ (Nat.lt_succ_self _) hp]

lemma rmLitStep_match (lit s : Str) : rmLitStep lit (lit ++ s) = some ([], s) := by
  unfold rmLitStep onLit
  rw [sw_self_append]
  simp [List.drop_left]

lemma rmLitStep_nil (lit : Str) (hne : lit ≠ []) : rmLitStep lit [] = none := by
  cases lit with
  | nil => exact absurd rfl hne
  | cons l0 lt => simp [rmLitStep, onLit, sw]

lemma rmLitStep_ne (lit : Str) (tc c : Char) (r : Str) (hne : lit ≠ [])
    (hhd : lit.headD ' ' = tc) (hc : ¬(c = tc)) :
    rmLitStep lit (c :: r) = none := by
  unfold rmLitStep onLit
  rw [head_sw_false hne hhd hc]
  rfl

lemma twStep_nil : twStep [] = none := rfl

lemma twStep_ne (c : Char) (r : Str) (hc : ¬(c = '0')) :
    twStep (c :: r) = none := by
  cases r with
  | nil => rfl
  | cons d r2 =>
    rw [twStep.eq_def]
    simp [hc]

lemma takeWhile_digits (ds : Str) (r2 : Str)
    (hdig : ∀ c ∈ ds, isDigitC c = true) :
    (ds ++ '\\' :: r2).takeWhile isDigitC = ds ∧
      (ds ++ '\\' :: r2).dropWhile isDigitC = '\\' :: r2 := by
  induction ds with
  | nil =>
    have h0 : isDigitC '\\' = false := by decide
    constructor
    · simp [List.takeWhile_cons, h0]
    · simp [List.dropWhile_cons, h0]
  | cons d ds2 ih =>
    have hd2 : isDigitC d = true := hdig d (List.mem_cons_self d ds2)
    have := ih (fun c hc => hdig c (List.mem_cons_of_mem d hc))
    constructor
    · simp only [List.cons_append, List.takeWhile_cons, hd2, if_true]
      rw [this.1]
    · simp only [List.cons_append, List.dropWhile_cons, hd2, if_true]
      exact this.2

lemma twStep_match (ds s : Str) (hds : ds ≠ [])
    (hdig : ∀ c ∈ ds, isDigitC c = true) :
    twStep ('0' :: '.' :: (ds ++ ('\\' :: (str "textwidth" ++ s))))
      = some ([], s) := by
  have htw := takeWhile_digits ds (str "textwidth" ++ s) hdig
  have hde : ds.isEmpty = false := by
    cases ds with
    | nil => exact absurd rfl hds
    | cons a b => rfl
  have hsw : sw (str "\\textwidth") ('\\' :: (str "textwidth" ++ s)) = true := by
    have := sw_self_append (str "\\textwidth") s
    simpa using this
  have hdrop : List.drop 10 ('\\' :: (str "textwidth" ++ s)) = s := by
    show List.drop 9 (str "textwidth" ++ s) = s
    rw [show (9 : Nat) = (str "textwidth").length from by decide]
    exact List.drop_left _ _
  rw [twStep.eq_def]
  simp only [htw.1, htw.2, hde, hsw, hdrop]
  simp

/-! ## Slugify characterization (C4) -/

lemma scanF_slugFilter : ∀ (fuel : Nat) (s : Str), s.length < fuel →
    scanF (fun _ t => ((slugFilterStep t).map (fun p => (p.1, p.2, ()))))
      fuel () s = (s.filter keepSlugC, ()) := by
  intro fuel
  induction fuel with
  | zero => intro s h; exact absurd h (Nat.not_lt_zero _)
  | succ f ih =>
    intro s h
    cases s with
    | nil => rfl
    | cons c cs =>
      by_cases hk : keepSlugC c = true
      · have hstep : slugFilterStep (c :: cs) = none := by
          simp [slugFilterStep, hk]
        rw [scanF_skip _ f () c cs (by simp [hstep])]
        rw [ih cs (by simp at h; omega)]
        simp [List.filter_cons, hk]
      · have hk2 : keepSlugC c = false := by
          cases hx : keepSlugC c
          · rfl
          · exact absurd hx hk
        have hstep : slugFilterStep (c :: cs) = some ([], cs) := by
          simp [slugFilterStep, hk2]
        rw [scanF_consume _ f () () c cs [] cs (by simp [hstep])]
        rw [ih cs (by simp at h; omega)]
        simp [List.filter_cons, hk2]

lemma collapseWsD_drop (cs : Str) :
    collapseWsD true cs = collapseWsD false (cs.dropWhile isWsC) := by
  induction cs with
  | nil => rfl
  | cons d cs2 ih =>
    by_cases hw : isWsC d = true
    · simp only [collapseWsD, hw, if_true, List.dropWhile_cons]
      exact ih
    · have hw2 : isWsC d = false := by
        cases hx : isWsC d
        · rfl
        · exact absurd hx hw
      simp [collapseWsD, List.dropWhile_cons, hw2]

lemma scanF_slugWs : ∀ (fuel : Nat) (s : Str), s.length < fuel →
    scanF (fun _ t => ((slugWsStep t).map (fun p => (p.1, p.2, ()))))
      fuel () s = (collapseWsD false s, ()) := by
  intro fuel
  induction fuel with
  | zero => intro s h; exact absurd h (Nat.not_lt_zero _)
  | succ f ih =>
    intro s h
    cases s with
    | nil => rfl
    | cons c cs =>
      by_cases hw : isWsC c = true
      · have hstep : slugWsStep (c :: cs) = some (str "-", cs.dropWhile isWsC) := by
          simp [slugWsStep, hw]
        rw [scanF_consume _ f () () c cs (str "-") (cs.dropWhile isWsC)
          (by simp [hstep])]
        rw [ih (cs.dropWhile isWsC)
          (by
            have hle : (List.dropWhile isWsC cs).length ≤ cs.length :=
              List.Sublist.length_le (List.dropWhile_sublist isWsC)
            simp at h
            omega)]
        simp only [collapseWsD, hw, if_true, collapseWsD_drop]
        rfl
      · have hw2 : isWsC c = false := by
          cases hx : isWsC c
          · rfl
          · exact absurd hx hw
        have hstep : slugWsStep (c :: cs) = none := by
          simp [slugWsStep, hw2]
        rw [scanF_skip _ f () c cs (by simp [hstep])]
        rw [ih cs (by simp at h; omega)]
        simp [collapseWsD, hw2]

lemma collapseHyD_drop (cs : Str) :
    collapseHyD true cs = collapseHyD false (cs.dropWhile (fun x => x = '-')) := by
  induction cs with
  | nil => rfl
  | cons d cs2 ih =>
    by_cases hw : d = '-'
    · subst hw
      simp only [collapseHyD, if_true, List.dropWhile_cons]
      simpa using ih
    · simp [collapseHyD, List.dropWhile_cons, hw]

lemma scanF_slugHy : ∀ (fuel : Nat) (s : Str), s.length < fuel →
    scanF (fun _ t => ((slugHyStep t).map (fun p => (p.1, p.2, ()))))
      fuel () s = (collapseHyD false s, ()) := by
  intro fuel
  induction fuel with
  | zero => intro s h; exact absurd h (Nat.not_lt_zero _)
  | succ f ih =>
    intro s h
    cases s with
    | nil => rfl
    | cons c cs =>
      by_cases hw : c = '-'
      · subst hw
        have hstep : slugHyStep ('-' :: cs)
            = some (str "-", cs.dropWhile (fun x => x = '-')) := by
          simp [slugHyStep]
        rw [scanF_consume _ f () () '-' cs (str "-")
          (cs.dropWhile (fun x => x = '-')) (by simp [hstep])]
        rw [ih (cs.dropWhile (fun x => x = '-'))
          (by
            have hle : (List.dropWhile (fun x => decide (x = '-')) cs).length
                ≤ cs.length :=
              List.Sublist.length_le (List.dropWhile_sublist _)
            simp at h
            omega)]
        simp only [collapseHyD, if_true, collapseHyD_drop]
        rfl
      · have hstep : slugHyStep (c :: cs) = none := by
          simp [slugHyStep, hw]
        rw [scanF_skip _ f () c cs (by simp [hstep])]
        rw [ih cs (by simp at h; omega)]
        simp [collapseHyD, hw]

lemma slugify_eq_amended (s : Str) : slugify s = slugifyAmended s := by
  have h1 : ∀ t : Str,
      scanF (fun _ u => ((slugFilterStep u).map (fun p => (p.1, p.2, ()))))
        (t.length + 1) () t = (t.filter keepSlugC, ()) :=
    fun t => scanF_slugFilter (t.length + 1) t (by omega)
  have h2 : ∀ t : Str,
      scanF (fun _ u => ((slugWsStep u).map (fun p => (p.1, p.2, ()))))
        (t.length + 1) () t = (collapseWsD false t, ()) :=
    fun t => scanF_slugWs (t.length + 1) t (by omega)
  have h3 : ∀ t : Str,
      scanF (fun _ u => ((slugHyStep u).map (fun p => (p.1, p.2, ()))))
        (t.length + 1) () t = (collapseHyD false t, ()) :=
    fun t => scanF_slugHy (t.length + 1) t (by omega)
  simp only [slugify, slugifyAmended, grepl, runScan, h1, h2, h3]

/-! ## Extractor title (C5) -/

lemma findTitleBold_none (doc : Str)
    (h : containsSub (str "\\title\x7b\\textbf\x7b") doc = false) :
    findTitleBold doc = none := by
  induction doc with
  | nil => rfl
  | cons c cs ih =>
    simp only [containsSub, Bool.or_eq_false_iff] at h
    rw [findTitleBold.eq_def]
    simp only [h.1, Bool.false_eq_true, if_false]
    exact ih h.2

/-! ## Extractor image mapping (C9) -/

lemma upsert_mem (acc : List (Str × Str)) (k v : Str) (kv : Str × Str)
    (h : kv ∈ upsert acc k v) : kv = (k, v) ∨ kv ∈ acc := by
  unfold upsert at h
  split at h
  · rcases List.mem_map.mp h with ⟨kv2, hmem, heq⟩
    by_cases h2 : kv2.1 = k
    · left; rw [← heq]; simp [h2]
    · right; rw [← heq]; simp [h2]; exact hmem
  · rcases List.mem_append.mp h with h2 | h2
    · right; exact h2
    · left; simpa using h2

lemma addImage_pres (fs : Str → Bool) (acc : List (Str × Str)) (arg : Str)
    (hacc : ∀ kv ∈ acc, imgEntryOk fs kv) :
    ∀ kv ∈ addImage fs acc arg, imgEntryOk fs kv := by
  intro kv hkv
  simp only [addImage] at hkv
  cases hsp : splitSlash ((trimJs arg).length + 1) (trimJs arg) with
  | nil =>
    simp only [hsp] at hkv
    exact hacc kv hkv
  | cons folder rest =>
    cases rest with
    | nil =>
      simp only [hsp] at hkv
      exact hacc kv hkv
    | cons r2 rest2 =>
      simp only [hsp] at hkv
      by_cases hfs : fs (assetsPath folder ((r2 :: rest2).getLastD [])) = true
      · simp only [hfs, if_true] at hkv
        rcases upsert_mem _ _ _ _ hkv with h | h
        · subst h
          exact ⟨folder, hfs, rfl⟩
        · exact hacc _ h
      · simp only [if_neg hfs] at hkv
        exact hacc kv hkv

lemma foldl_addImage_pres (fs : Str → Bool) :
    ∀ (args : List Str) (acc : List (Str × Str)),
      (∀ kv ∈ acc, imgEntryOk fs kv) →
      ∀ kv ∈ args.foldl (addImage fs) acc, imgEntryOk fs kv := by
  intro args
  induction args with
  | nil => intro acc hacc kv hkv; exact hacc kv hkv
  | cons a args2 ih =>
    intro acc hacc kv hkv
    exact ih (addImage fs acc a) (addImage_pres fs acc a hacc) kv hkv

lemma addImage_single_seg (fs : Str → Bool) (acc : List (Str × Str)) (p : Str)
    (h : ∀ c ∈ trimJs p, ¬(c = '/')) : addImage fs acc p = acc := by
  have hsplit : splitSlash ((trimJs p).length + 1) (trimJs p) = [trimJs p] := by
    rw [splitSlash]
    rw [upToChar_none '/' (trimJs p) h]
  simp only [addImage, hsplit]

/-! ## Attribute payload (C2) -/

lemma concat_mid_congr (x1 y1 x2 y2 t : Str) (hx : x1 = x2) (hy : y1 = y2) :
    x1 ++ (t ++ y1) = x2 ++ (t ++ y2) := by rw [hx, hy]

/-- Character-reference decoding is the identity on an attribute value
containing no ampersand (exactly as in a browser, where no reference can
begin without one). -/
lemma attrDecode_id : ∀ (fuel : Nat) (s : Str), s.length < fuel →
    (∀ c ∈ s, ¬(c = '&')) → attrDecode fuel s = s := by
  intro fuel
  induction fuel with
  | zero => intro s h _; exact absurd h (Nat.not_lt_zero _)
  | succ f ih =>
    intro s h hs
    cases s with
    | nil => rfl
    | cons c cs =>
      have hc : ¬(c = '&') := hs c (List.mem_cons_self c cs)
      simp only [attrDecode, hc, if_false]
      rw [ih cs (by simp only [List.length_cons] at h; omega)
        (fun d hd2 => hs d (List.mem_cons_of_mem c hd2))]

/-- Reading the math payload out of the transpiled `x $m$ y` output:
with no double quote the attribute value is the whole stored text, and
with no ampersand the browser's reference decoding returns it
unchanged. -/
lemma getDataMath_master (t : Str) (ht : ∀ c ∈ t, ¬(c = '"'))
    (ha : ∀ c ∈ t, ¬(c = '&')) :
    getDataMath (str "<p class=\"mb-4 leading-relaxed text-gray-200\">x " ++
      ((str "<span data-math=\"" ++ t ++ str "\" data-display=\"false\"></span>") ++
        str " y</p>")) = some t := by
  have hshape : str "<p class=\"mb-4 leading-relaxed text-gray-200\">x " ++
      ((str "<span data-math=\"" ++ t ++ str "\" data-display=\"false\"></span>") ++
        str " y</p>")
      = (str "<p class=\"mb-4 leading-relaxed text-gray-200\">x <span " : Str) ++
        (str "data-math=\"" ++
          (t ++ ('"' :: str " data-display=\"false\"></span> y</p>"))) := by
    simp only [List.append_assoc]
    rw [← List.append_assoc
      (str "<p class=\"mb-4 leading-relaxed text-gray-200\">x ")
      (str "<span data-math=\"")]
    rw [← List.append_assoc
      (str "<p class=\"mb-4 leading-relaxed text-gray-200\">x <span ")
      (str "data-math=\"")]
    exact concat_mid_congr _ _ _ _ t (by decide) (by decide)
  rw [hshape]
  unfold getDataMath
  rw [upToSub_concat (str "data-math=\"")
    (str "<p class=\"mb-4 leading-relaxed text-gray-200\">x <span ")
    (t ++ ('"' :: str " data-display=\"false\"></span> y</p>"))
    (by decide) (by decide)]
  have hdec : attrDecodeR t = t :=
    attrDecode_id (t.length + 1) t (Nat.lt_succ_self _) ha
  simp [upToChar_append '"' t (str " data-display=\"false\"></span> y</p>") ht,
    hdec]

/-! # Claim theorems -/

/-- Claim C1 (code bug): the spec says the structural-stripping phase
removes caption commands only *outside* figures, and the figure phase
extracts the caption by brace counting and renders it beneath the figure.
In the code the global `\caption{[^}]*}` strip (line 140) runs before the
figure phase (line 195), so a figure-internal caption is deleted first:
at the failing input the figure renders, the image resolves, and the
caption text is absent from the output. -/
theorem C1_figure_caption_stripped :
    containsSub (str "\\caption\x7b") capFigDoc = true ∧
    containsSub (str "<figure") (parseAndRender capFigDoc demoImages) = true ∧
    containsSub (str "<img") (parseAndRender capFigDoc demoImages) = true ∧
    containsSub (str "A nice caption") (parseAndRender capFigDoc demoImages)
      = false := by decide

/-- Claim C2 (counterexample): math containing a double quote has its
payload truncated at the quote, and math containing an HTML character
reference reaches the renderer decoded — in neither case does
`getAttribute('data-math')` byte-match the trimmed source. -/
theorem C2_quote_truncates_payload :
    (getDataMath (parseAndRender (str "x $a \"b\" c$ y") []) = some (str "a ") ∧
     trimJs (str "a \"b\" c") = str "a \"b\" c" ∧
     ¬((str "a " : Str) = str "a \"b\" c")) ∧
    (getDataMath (parseAndRender (str "x $a &amp; b$ y") [])
        = some (str "a & b") ∧
     trimJs (str "a &amp; b") = str "a &amp; b" ∧
     ¬((str "a & b" : Str) = str "a &amp; b")) := by decide

/-- Claim C2 (amended): the payload `getAttribute('data-math')` yields is
the attribute value after HTML parsing and character-reference decoding.
For every inline math body free of dollars, double quotes and ampersands
— and of the display-extraction trigger substrings, so that the inline
pass is the one that captures it — the payload byte-matches the source
between the delimiters after trimming; arbitrary backslash commands pass
through verbatim.  Second conjunct: the same for a concrete display-math
input with a `\frac` body. -/
theorem C2_payload_match :
    (∀ m : Str, m ≠ [] → (∀ c ∈ m, ¬(c = '$')) → (∀ c ∈ m, ¬(c = '"')) →
      (∀ c ∈ m, ¬(c = '&')) →
      containsSub (str "\\texorpdfstring\x7b") m = false →
      containsSub (str "\\[") m = false →
      containsSub (str "\\begin\x7b") m = false →
      getDataMath
        (parseAndRender ('x' :: ' ' :: '$' :: (m ++ '$' :: ' ' :: 'y' :: [])) [])
        = some (trimJs m)) ∧
    getDataMath (parseAndRender (str "\\[ \\frac\x7ba\x7d\x7bb\x7d \\]") [])
      = some (str "\\frac\x7ba\x7d\x7bb\x7d") := by
  constructor
  · intro m hne hd hq ha htx hbk hbg
    rw [master_inline m hne hd htx hbk hbg]
    unfold mkInlineVal
    exact getDataMath_master (trimJs m) (fun c hc => hq c (mem_trimJs hc))
      (fun c hc => ha c (mem_trimJs hc))
  · decide

/-- Witness for C2 (amended) at the backslash-command body `\frac{a}{b}`. -/
theorem C2_payload_witness :
    getDataMath (parseAndRender (str "x $\\frac\x7ba\x7d\x7bb\x7d$ y") [])
      = some (str "\\frac\x7ba\x7d\x7bb\x7d") := by
  rw [show str "x $\\frac\x7ba\x7d\x7bb\x7d$ y"
    = ('x' :: ' ' :: '$' :: (str "\\frac\x7ba\x7d\x7bb\x7d"
        ++ '$' :: ' ' :: 'y' :: [])) from by decide]
  rw [C2_payload_match.1 (str "\\frac\x7ba\x7d\x7bb\x7d") (by decide) (by decide)
    (by decide) (by decide) (by decide) (by decide) (by decide)]
  decide

/-- Claim C3 (counterexample): restoration is a JavaScript regex `replace`
whose replacement string is the stored markup, so math containing the
replacement pattern `$&` is re-interpreted — the matched placeholder key
is spliced into the data-math payload instead of the literal `$&`. -/
theorem C3_dollar_sequences_reinterpreted :
    containsSub (str "$&") (parseAndRender (str "\\[a $& b\\]") []) = false ∧
    containsSub (str "data-math=\"a __MATH_DISPLAY_0__ b\"")
      (parseAndRender (str "\\[a $& b\\]") []) = true := by decide

/-- Claim C3 (amended): each placeholder is restored at the very end by a
global regex replacement whose replacement string is the stored markup.
(1) The restoration pass inserts any stored markup containing no
JavaScript dollar-replacement sequence (`$$`, `$&`, dollar-backquote,
`$'`) verbatim, exactly once — backslash commands, braces and lone
dollars included; (2) the full pipeline restores inline math this way for
any nonempty body free of dollars and of the display-trigger substrings,
arbitrary TeX macros included; (3) a display `\frac` body is stored and
restored exactly once. -/
theorem C3_restore_verbatim :
    (∀ key val a b : Str, key ≠ [] → escapeHtml key = key →
      cleanPre key a = true → containsSub key b = false →
      noDollarSeq val = true →
      restore [(key, val)] (a ++ (key ++ b)) = a ++ (val ++ b)) ∧
    (∀ m : Str, m ≠ [] → (∀ c ∈ m, ¬(c = '$')) →
      containsSub (str "\\texorpdfstring\x7b") m = false →
      containsSub (str "\\[") m = false →
      containsSub (str "\\begin\x7b") m = false →
      parseAndRender ('x' :: ' ' :: '$' :: (m ++ '$' :: ' ' :: 'y' :: [])) [] =
        str "<p class=\"mb-4 leading-relaxed text-gray-200\">x " ++
          (mkInlineVal m ++ str " y</p>")) ∧
    (countSubR (str "data-math")
        (parseAndRender (str "\\[ \\frac\x7ba\x7d\x7bb\x7d \\]") []) = 1 ∧
     containsSub (str "data-math=\"\\frac\x7ba\x7d\x7bb\x7d\"")
        (parseAndRender (str "\\[ \\frac\x7ba\x7d\x7bb\x7d \\]") []) = true) := by
  refine ⟨?_, fun m hne hd htx hbk hbg => master_inline m hne hd htx hbk hbg,
    by decide⟩
  intro key val a b hk hesc ha hb hval
  unfold restore
  simp only [List.foldl, hesc]
  rw [jsReplAll_concat key val hk a b [] _ (Nat.lt_succ_self _) ha hb]
  rw [jsSubst_noSeq val hval]

/-- Witness for C3: markup holding a lone dollar and a TeX macro is
restored verbatim, and the pipeline restores the body `\alpha + \beta`
verbatim. -/
theorem C3_restore_witness :
    restore [(inlKey 0, str "pay $5 for \\alpha")]
        (str "A " ++ (inlKey 0 ++ str " B"))
      = str "A " ++ (str "pay $5 for \\alpha" ++ str " B") ∧
    parseAndRender (str "x $\\alpha + \\beta$ y") [] =
      str "<p class=\"mb-4 leading-relaxed text-gray-200\">x " ++
        (mkInlineVal (str "\\alpha + \\beta") ++ str " y</p>") := by
  constructor
  · exact C3_restore_verbatim.1 (inlKey 0) (str "pay $5 for \\alpha")
      (str "A ") (str " B") (by decide) (by decide) (by decide) (by decide)
      (by decide)
  · rw [show str "x $\\alpha + \\beta$ y"
      = ('x' :: ' ' :: '$' :: (str "\\alpha + \\beta" ++ '$' :: ' ' :: 'y' :: []))
      from by decide]
    exact C3_restore_verbatim.2.1 (str "\\alpha + \\beta") (by decide)
      (by decide) (by decide) (by decide) (by decide)

/-- Claim C4 (counterexample): the filter is JavaScript `[^\w\s-]`, which
keeps the underscore; the claim's "every character that is not
alphanumeric, whitespace, or hyphen removed" would delete it. -/
theorem C4_underscore_kept :
    slugify (str "a_b") = str "a_b" ∧
    slugifySpecClaim (str "a_b") = str "ab" ∧
    ¬(slugify (str "a_b") = slugifySpecClaim (str "a_b")) := by decide

/-- Claim C4 (amended): slugify lower-cases, keeps exactly the word
characters (alphanumerics and the underscore), whitespace and hyphens,
collapses whitespace runs to one hyphen, collapses hyphen runs, and
truncates to 50 characters; it is a pure function of the name alone. -/
theorem C4_slugify_characterization (s : Str) :
    slugify s = slugifyAmended s ∧ (slugify s).length ≤ 50 := by
  refine ⟨slugify_eq_amended s, ?_⟩
  unfold slugify
  simp [List.length_take]

/-- Claim C5 (counterexample): the Extractor's title regex demands the
exact `\title{\textbf{...}}` shape, so a plain `\title{Orbits}` — a
present title-declaration command — still produces the fallback
`"Untitled"`. -/
theorem C5_plain_title_gives_untitled :
    containsSub (str "\\title\x7b") (str "\\title\x7bOrbits\x7d") = true ∧
    extractTitle (str "\\title\x7bOrbits\x7d") = str "Untitled" := by decide

/-- Claim C5 (amended): a title is extracted only from the bold-wrapped
form `\title{\textbf{...}}` (with inline-math dollar delimiters stripped
from the result); any document without that exact pattern — including one
with a plain title command — yields the fallback `"Untitled"`. -/
theorem C5_title_amended :
    (∀ doc : Str, containsSub (str "\\title\x7b\\textbf\x7b") doc = false →
      extractTitle doc = str "Untitled") ∧
    extractTitle (str "\\title\x7b\\textbf\x7bDark $\\Lambda$ Fits\x7d\x7d")
      = str "Dark \\Lambda Fits" := by
  constructor
  · intro doc h
    unfold extractTitle
    rw [findTitleBold_none doc h]
    decide
  · decide

/-- Witness for C5 (amended) at a document with no bold-wrapped title. -/
theorem C5_title_witness :
    containsSub (str "\\title\x7b\\textbf\x7b") (str "no title here") = false ∧
    extractTitle (str "no title here") = str "Untitled" :=
  ⟨by decide, C5_title_amended.1 (str "no title here") (by decide)⟩

/-- Claim C6 (code bug): for a slug outside the cover table and an empty
image mapping, `getPreviewImage` evaluates a template literal referencing
`baseUrl`, an identifier declared nowhere in the script — a
`ReferenceError`, not the placeholder path the claim describes. -/
theorem C6_missing_cover_empty_mapping_throws :
    getPreviewImage [] (str "my-project")
      = Except.error (str "ReferenceError: baseUrl is not defined") ∧
    lookupA coverImages (str "my-project") = none := ⟨rfl, by decide⟩

/-- Claim C7 (counterexample): a width written as a multiple of
`\textwidth` is deleted by the earlier stripping phase (lines 148-149),
so the figure's direct image takes the full-size class `max-w-3xl`, not
the medium class the claim requires for the 0.5 fraction. -/
theorem C7_textwidth_width_gets_full_class :
    containsSub (str "max-w-3xl")
      (parseAndRender (figDoc (str "width=0.5\\textwidth")) demoImages)
      = true ∧
    containsSub (str "max-w-md")
      (parseAndRender (figDoc (str "width=0.5\\textwidth")) demoImages)
      = false := by decide

/-- Claim C7 (amended): the bucketing is substring containment on whatever
width text survives the stripping phase — fractions written with
`\textwidth` are already deleted and always give the full class, widths
surviving in other forms (e.g. `scale=...`) bucket by containing
`0.48`/`0.5`/`0.6` (medium) else `0.4`/`0.3` (small) else full, so e.g.
`0.55` lands in medium via the `0.5` substring. -/
theorem C7_bucketing_amended :
    containsSub (str "max-w-3xl")
      (parseAndRender (figDoc (str "width=0.5\\textwidth")) demoImages)
      = true ∧
    containsSub (str "max-w-md")
      (parseAndRender (figDoc (str "scale=0.5")) demoImages) = true ∧
    containsSub (str "max-w-sm")
      (parseAndRender (figDoc (str "scale=0.3")) demoImages) = true ∧
    containsSub (str "max-w-md")
      (parseAndRender (figDoc (str "scale=0.55")) demoImages) = true ∧
    containsSub (str "max-w-3xl")
      (parseAndRender figDocNoSpec demoImages) = true ∧
    widthClass (str "width=0.55cm") = str "max-w-md w-full" ∧
    widthClass [] = str "max-w-3xl w-full" := by decide

/-- Claim C8 (counterexample): re-transpiling the transpiled output of a
bulleted list wraps the list items in one more list container — the first
pass already emits two nested `<ul>` (the itemize conversion plus the
generic item-run wrapper), and the second pass adds a third — although the
output contains no LaTeX command token at all. -/
theorem C8_retranspile_rewraps_lists :
    countSubR (str "<ul") (parseAndRender listDoc []) = 2 ∧
    countSubR (str "<ul") (parseAndRender (parseAndRender listDoc []) []) = 3 ∧
    containsSub (str "\\") (parseAndRender listDoc []) = false ∧
    ¬(parseAndRender (parseAndRender listDoc []) [] = parseAndRender listDoc [])
    := by decide

/-- Claim C8 (amended): re-transpiling is not idempotent in general — runs
of emitted list items get wrapped in an additional list container on each
pass — but entities escaped by the first pass are not escaped again: the
plain-paragraph output is a fixed point and its `&amp;` stays single. -/
theorem C8_entities_not_double_escaped :
    parseAndRender (parseAndRender ampDoc []) [] = parseAndRender ampDoc [] ∧
    countSubR (str "&amp;") (parseAndRender ampDoc []) = 1 ∧
    containsSub (str "&amp;amp;")
      (parseAndRender (parseAndRender ampDoc []) []) = false ∧
    countSubR (str "<ul")
      (parseAndRender (parseAndRender listDoc []) []) = 3 := by decide

/-- Claim C9: every entry of the extracted image mapping comes from a
referenced path whose folder/file split passed the existence check under
the public-assets layout (so its value is the corresponding public URL),
and a single-segment path — one with no slash — never adds an entry,
whatever the filesystem contains. -/
theorem C9_mapping_origin :
    (∀ (fs : Str → Bool) (tex : Str) (kv : Str × Str),
      kv ∈ extractImages fs tex → imgEntryOk fs kv) ∧
    (∀ (fs : Str → Bool) (acc : List (Str × Str)) (p : Str),
      (∀ c ∈ trimJs p, ¬(c = '/')) → addImage fs acc p = acc) := by
  constructor
  · intro fs tex kv h
    exact foldl_addImage_pres fs (igPaths tex) []
      (fun kv2 h2 => absurd h2 (List.not_mem_nil kv2)) kv h
  · intro fs acc p h
    exact addImage_single_seg fs acc p h

/-- Witness for C9 at a two-segment reference with an all-true filesystem,
and a bare filename that adds nothing even though the file "exists". -/
theorem C9_mapping_origin_witness :
    ((str "img.png", str "/assets/Project-1/img.png") ∈
      extractImages (fun _ => true)
        (str "\\includegraphics\x7bProject-1/img.png\x7d")) ∧
    imgEntryOk (fun _ => true)
      (str "img.png", str "/assets/Project-1/img.png") ∧
    addImage (fun _ => true) [] (str "img.png") = [] := by
  refine ⟨by decide, ?_, ?_⟩
  · exact C9_mapping_origin.1 (fun _ => true)
      (str "\\includegraphics\x7bProject-1/img.png\x7d")
      (str "img.png", str "/assets/Project-1/img.png") (by decide)
  · exact C9_mapping_origin.2 (fun _ => true) [] (str "img.png") (by decide)

/-- Claim C10: the transpiler deletes, in the stripping phase that runs
before figure processing, every marked occurrence of the literal `0.48`
and of a digit fraction followed by `\textwidth` from the running text
(first two conjuncts, for any surrounding prose free of the trigger
digit); prose occurrences vanish from the rendered output while an
occurrence inside an already-extracted math span survives into its
`data-math` payload (last conjunct). -/
theorem C10_width_literals_stripped :
    (∀ p s : Str, (∀ c ∈ p, ¬(c = '0')) → (∀ c ∈ s, ¬(c = '0')) →
      grepl (rmLitStep (str "0.48")) (p ++ (str "0.48" ++ s)) = p ++ s) ∧
    (∀ p ds s : Str, ds ≠ [] → (∀ c ∈ ds, isDigitC c = true) →
      (∀ c ∈ p, ¬(c = '0')) → (∀ c ∈ s, ¬(c = '0')) →
      grepl twStep (p ++ (('0' :: '.' :: (ds ++ str "\\textwidth")) ++ s))
        = p ++ s) ∧
    (countSubR (str "0.48") (parseAndRender widthDoc []) = 1 ∧
     containsSub (str "data-math=\"0.48\"") (parseAndRender widthDoc [])
       = true ∧
     containsSub (str "0.3") (parseAndRender widthDoc []) = false) := by
  refine ⟨?_, ?_, by decide⟩
  · intro p s hp hs
    exact grepl_mid (rmLitStep (str "0.48")) (str "0.48") s '0'
      (by decide) (rmLitStep_match _ s) (rmLitStep_nil _ (by decide))
      (fun c r hc => rmLitStep_ne _ '0' c r (by decide) (by decide) hc)
      p hp hs
  · intro p ds s hds hdig hp hs
    apply grepl_mid twStep ('0' :: '.' :: (ds ++ str "\\textwidth")) s '0'
      (by simp) ?hm twStep_nil (fun c r hc => twStep_ne c r hc) p hp hs
    case hm =>
      have hassoc : (ds ++ str "\\textwidth") ++ s
          = ds ++ ('\\' :: (str "textwidth" ++ s)) := by
        rw [List.append_assoc]
        exact rfl
      show twStep (('0' :: '.' :: (ds ++ str "\\textwidth")) ++ s)
        = some ([], s)
      rw [show ('0' :: '.' :: (ds ++ str "\\textwidth")) ++ s
        = '0' :: '.' :: ((ds ++ str "\\textwidth") ++ s) from rfl]
      rw [hassoc]
      exact twStep_match ds s hds hdig

/-- Witness for C10 at concrete prose around both width literals. -/
theorem C10_width_literals_witness :
    grepl (rmLitStep (str "0.48")) (str "ab" ++ (str "0.48" ++ str "cd"))
      = str "ab" ++ str "cd" ∧
    grepl twStep
      (str "ab" ++ (('0' :: '.' :: (str "5" ++ str "\\textwidth")) ++ str "cd"))
      = str "ab" ++ str "cd" := by
  constructor
  · exact C10_width_literals_stripped.1 (str "ab") (str "cd")
      (by decide) (by decide)
  · exact C10_width_literals_stripped.2.1 (str "ab") (str "5") (str "cd")
      (by decide) (by decide) (by decide) (by decide)

end Portfolio
